import Mathlib

/-!
Shallow embedding of the graph-recommendation core of the repository
(`tp1/knoledge_graphs`): dataset model (`data.py`), graph construction
(`graph.py : build_graph`) and the recommendation engine
(`recommendation.py : RecommendationEngine`).

Python floats are modelled by exact rationals (`ℚ`); Python `dict`s by
insertion-ordered association lists; Python `set`s by duplicate-free lists.
All arithmetic performed by the code on the reals is a composition of
field operations, so the rational model computes the same values the
ideal-real reading of the code assigns; tolerance claims (`1e-6`, `1e-9`)
are settled against those exact values.
-/

namespace GraphRec

/-- Python `dict.get(k, d)`: first value bound to key `k`, or default `d`. -/
def lookupD {κ α : Type} [DecidableEq κ] (m : List (κ × α)) (k : κ) (d : α) : α :=
  match m with
  | [] => d
  | kv :: rest => if kv.1 = k then kv.2 else lookupD rest k d

/-- Python `dict` assignment `m[k] = v`: update in place, or append a new key. -/
def alSet {κ α : Type} [DecidableEq κ] (m : List (κ × α)) (k : κ) (v : α) : List (κ × α) :=
  match m with
  | [] => [(k, v)]
  | kv :: rest => if kv.1 = k then (k, v) :: rest else kv :: alSet rest k v

/-- Python `set.add`: insert an element if absent. -/
def sinsert {κ : Type} [DecidableEq κ] (s : List κ) (x : κ) : List κ :=
  if x ∈ s then s else s ++ [x]

/-- Python `set.union`. -/
def sunion {κ : Type} [DecidableEq κ] (a b : List κ) : List κ :=
  b.foldl sinsert a

/-- Python `set` intersection (`&`), on duplicate-free lists. -/
def sinter {κ : Type} [DecidableEq κ] (a b : List κ) : List κ :=
  a.filter (fun x => x ∈ b)

/-- `itertools.combinations(l, 2)`: ordered pairs of positions `i < j`. -/
def combos2 {α : Type} : List α → List (α × α)
  | [] => []
  | x :: xs => xs.map (fun y => (x, y)) ++ combos2 xs

/-- Sum of the values of an association list. -/
def alSum {κ : Type} (m : List (κ × ℚ)) : ℚ :=
  (m.map Prod.snd).sum

/-- Stable insertion into a sorted list: place `x` before the first element
`y` with `le x y`.  Models the effect of Python's stable `list.sort`. -/
def sortedInsert {α : Type} (le : α → α → Bool) (x : α) : List α → List α
  | [] => [x]
  | y :: ys => if le x y then x :: y :: ys else y :: sortedInsert le x ys

/-- Insertion sort with respect to the boolean relation `le`. -/
def sortBy {α : Type} (le : α → α → Bool) : List α → List α
  | [] => []
  | x :: xs => sortedInsert le x (sortBy le xs)

/-! ## Data model (`data.py`) -/

/-- `data.Customer` (`join_date` is kept as an opaque string; it is never
read by the graph or the engine). -/
structure Customer where
  id : String
  name : String
  join_date : String
deriving DecidableEq, Repr

/-- `data.Product`. -/
structure Product where
  id : String
  name : String
  price : ℚ
  category_id : String
deriving DecidableEq, Repr

/-- `data.OrderItem`. -/
structure OrderItem where
  product_id : String
  quantity : Nat
deriving DecidableEq, Repr

/-- `data.Order` (`placed_at` kept as an opaque string). -/
structure Order where
  id : String
  customer_id : String
  placed_at : String
  items : List OrderItem
deriving DecidableEq, Repr

/-- `data.Event` (`occurred_at` kept as an opaque string). -/
structure Event where
  id : String
  customer_id : String
  product_id : String
  event_type : String
  occurred_at : String
deriving DecidableEq, Repr

/-- `data.Dataset`: the dictionaries keep insertion order, as Python dicts do.
Categories are carried along as in the source, though nothing reads them. -/
structure Dataset where
  customers : List (String × Customer)
  categories : List (String × String)
  products : List (String × Product)
  orders : List (String × Order)
  events : List Event
deriving DecidableEq, Repr

/-- `Dataset.product_ids()`: the keys of the product dictionary. -/
def Dataset.product_ids (ds : Dataset) : List String :=
  ds.products.map Prod.fst

/-- The keys of the customer dictionary (`dataset.customers` membership). -/
def Dataset.customer_keys (ds : Dataset) : List String :=
  ds.customers.map Prod.fst

/-! ## Graph construction (`graph.py`) -/

/-- `graph.EVENT_WEIGHTS`. -/
def EVENT_WEIGHTS : List (String × ℚ) :=
  [("view", 1/2), ("click", 1), ("add_to_cart", 2)]

/-- `graph.GraphData`: derived structures built by `build_graph`. -/
structure GraphData where
  dataset : Dataset
  product_cooccurrence : List (String × List (String × ℚ))
  product_customers : List (String × List String)
  customer_products : List (String × List String)
  event_weights : List ((String × String) × ℚ)
  product_adjacency : List (String × List (String × ℚ))
deriving DecidableEq, Repr

/-- One `+= 1` on `product_cooccurrence[a][b]` (a `defaultdict(Counter)`). -/
def coInc (co : List (String × List (String × ℚ))) (a b : String) :
    List (String × List (String × ℚ)) :=
  let row := lookupD co a []
  alSet co a (alSet row b (lookupD row b 0 + 1))

/-- State threaded through the two accumulation loops of `build_graph`. -/
structure BuildAcc where
  co : List (String × List (String × ℚ))
  pc : List (String × List String)
  cp : List (String × List String)
  ew : List ((String × String) × ℚ)
deriving DecidableEq, Repr

/-- The body of the orders loop of `build_graph`. -/
def orderStep (acc : BuildAcc) (pr : String × Order) : BuildAcc :=
  let order := pr.2
  let products_in_order := order.items.map (fun it => it.product_id)
  let pc := products_in_order.foldl
    (fun pc pid => alSet pc pid (sinsert (lookupD pc pid []) order.customer_id)) acc.pc
  let cp := products_in_order.foldl
    (fun cp pid => alSet cp order.customer_id (sinsert (lookupD cp order.customer_id []) pid)) acc.cp
  let co := (combos2 products_in_order).foldl
    (fun co lr => coInc (coInc co lr.1 lr.2) lr.2 lr.1) acc.co
  ⟨co, pc, cp, acc.ew⟩

/-- The body of the events loop of `build_graph`. -/
def eventStep (acc : BuildAcc) (event : Event) : BuildAcc :=
  let pc := alSet acc.pc event.product_id
    (sinsert (lookupD acc.pc event.product_id []) event.customer_id)
  let cp := alSet acc.cp event.customer_id
    (sinsert (lookupD acc.cp event.customer_id []) event.product_id)
  let weight := lookupD EVENT_WEIGHTS event.event_type 0
  let key := (event.customer_id, event.product_id)
  let ew := alSet acc.ew key (lookupD acc.ew key 0 + weight)
  ⟨acc.co, pc, cp, ew⟩

/-- `graph._initial_adjacency`. -/
def initial_adjacency (product_ids : List String) : List (String × List (String × ℚ)) :=
  product_ids.map (fun pid => (pid, []))

/-- The normalization loop of `build_graph`: each co-occurrence row with a
nonzero total is divided by its total. -/
def build_adjacency (product_ids : List String)
    (co : List (String × List (String × ℚ))) : List (String × List (String × ℚ)) :=
  co.foldl
    (fun adj pr =>
      let total := alSum pr.2
      if total = 0 then adj
      else alSet adj pr.1 (pr.2.map (fun nw => (nw.1, nw.2 / total))))
    (initial_adjacency product_ids)

/-- `graph.build_graph`. -/
def build_graph (ds : Dataset) : GraphData :=
  let acc0 : BuildAcc := ⟨[], [], [], []⟩
  let acc1 := ds.orders.foldl orderStep acc0
  let acc2 := ds.events.foldl eventStep acc1
  let adjacency := build_adjacency ds.product_ids acc2.co
  ⟨ds, acc2.co, acc2.pc, acc2.cp, acc2.ew, adjacency⟩

/-! ## Recommendation engine (`recommendation.py`) -/

/-- `recommendation.STRATEGY_WEIGHTS`. -/
def STRATEGY_WEIGHTS : List (String × ℚ) :=
  [("co_occurrence", 2/5), ("similarity", 3/10), ("personalized_pagerank", 3/10)]

/-- `recommendation.Recommendation`. -/
structure Recommendation where
  product_id : String
  score : ℚ
  contributions : List (String × ℚ)
deriving DecidableEq, Repr

/-- The error raised by `_ensure_known_customer` (a `ValueError` carrying the
unknown customer identifier; the spec's `UnknownEntity`). -/
inductive RecError where
  | UnknownEntity (customer_id : String)
deriving DecidableEq, Repr

/-- `recommendation.RecommendationEngine`: the constructor stores the graph
and the three solver parameters.  The cached fields `_product_ids` and
`_global_pagerank` are immutable functions of these and are modelled as the
derived definitions below. -/
structure RecommendationEngine where
  graph : GraphData
  damping : ℚ
  tolerance : ℚ
  max_iterations : Nat
deriving DecidableEq, Repr

/-- Engine construction with the default parameters
(`damping=0.85`, `tolerance=1e-6`, `max_iterations=50`). -/
def mkEngine (g : GraphData) : RecommendationEngine :=
  ⟨g, 17/20, 1/1000000, 50⟩

namespace RecommendationEngine

/-- `self._product_ids = list(graph.product_adjacency.keys())`. -/
def product_ids (e : RecommendationEngine) : List String :=
  e.graph.product_adjacency.map Prod.fst

/-- The adjacency row `graph.product_adjacency.get(p, {})`. -/
def adjRow (e : RecommendationEngine) (p : String) : List (String × ℚ) :=
  lookupD e.graph.product_adjacency p []

/-- `_uniform_personalization`. -/
def uniform_personalization (e : RecommendationEngine) : List (String × ℚ) :=
  if e.product_ids.isEmpty then []
  else e.product_ids.map (fun pid => (pid, 1 / (e.product_ids.length : ℚ)))

/-- `_normalize_personalization`. -/
def normalize_personalization (e : RecommendationEngine)
    (values : List (String × ℚ)) : List (String × ℚ) :=
  let total := (e.product_ids.map (fun pid => lookupD values pid 0)).sum
  if total = 0 then e.uniform_personalization
  else e.product_ids.map (fun pid => (pid, lookupD values pid 0 / total))

/-- One iteration of the `_run_pagerank` power loop, as a map from the rank
dictionary to the next one.  The value at each product is its
`(1-d)·personalization` base, plus every propagated increment targeted at it,
plus the redistributed dangling mass (the code skips the leak loop when the
leak is zero, which adds nothing). -/
def pagerank_step (e : RecommendationEngine)
    (pers ranks : List (String × ℚ)) : List (String × ℚ) :=
  let pids := e.product_ids
  let sink_rank := ((pids.filter (fun p => (e.adjRow p).isEmpty)).map
    (fun p => lookupD ranks p 0)).sum
  let leak := e.damping * sink_rank / (pids.length : ℚ)
  pids.map (fun q =>
    (q, (1 - e.damping) * lookupD pers q 0
      + (pids.map (fun p =>
          ((e.adjRow p).map (fun nw =>
            if nw.1 = q then e.damping * lookupD ranks p 0 * nw.2 else 0)).sum)).sum
      + (if leak = 0 then 0 else leak)))

/-- The `for _ in range(max_iterations)` loop of `_run_pagerank`, with the
early exit when the L1 delta drops below the tolerance. -/
def pagerank_loop (e : RecommendationEngine) (pers : List (String × ℚ)) :
    Nat → List (String × ℚ) → List (String × ℚ)
  | 0, ranks => ranks
  | fuel + 1, ranks =>
    let new_ranks := pagerank_step e pers ranks
    let delta := (e.product_ids.map
      (fun pid => |lookupD new_ranks pid 0 - lookupD ranks pid 0|)).sum
    if delta < e.tolerance then new_ranks else pagerank_loop e pers fuel new_ranks

/-- `_run_pagerank`. -/
def run_pagerank (e : RecommendationEngine)
    (personalization : List (String × ℚ)) : List (String × ℚ) :=
  if e.product_ids.isEmpty then []
  else
    pagerank_loop e (e.normalize_personalization personalization) e.max_iterations
      (e.product_ids.map (fun pid => (pid, 1 / (e.product_ids.length : ℚ))))

/-- `self._global_pagerank`, computed once at construction. -/
def global_pagerank (e : RecommendationEngine) : List (String × ℚ) :=
  e.run_pagerank e.uniform_personalization

/-- `_interacted_products`: products of events of this customer whose
accumulated weight is positive. -/
def interacted_products (e : RecommendationEngine) (customer_id : String) : List String :=
  (e.graph.event_weights.filter
    (fun kv => kv.1.1 = customer_id ∧ 0 < kv.2)).map (fun kv => kv.1.2)

/-- `set(self.graph.customer_products.get(customer_id, set()))`, the
`purchased` seed set of `recommend_for_customer`. -/
def purchased_products (e : RecommendationEngine) (customer_id : String) : List String :=
  lookupD e.graph.customer_products customer_id []

/-- `_co_occurrence_scores`. -/
def co_occurrence_scores (e : RecommendationEngine) (seeds : List String) :
    List (String × ℚ) :=
  seeds.foldl
    (fun scores seed =>
      (lookupD e.graph.product_cooccurrence seed []).foldl
        (fun scores cw =>
          if cw.1 ∈ seeds then scores
          else alSet scores cw.1 (lookupD scores cw.1 0 + cw.2))
        scores)
    []

/-- `_similarity_scores`. -/
def similarity_scores (e : RecommendationEngine) (seeds : List String) :
    List (String × ℚ) :=
  e.graph.product_customers.foldl
    (fun scores pr =>
      if pr.1 ∈ seeds then scores
      else
        let acc := seeds.foldl
          (fun acc seed =>
            let seed_customers := lookupD e.graph.product_customers seed []
            if seed_customers.isEmpty ∧ pr.2.isEmpty then acc
            else
              let union := sunion seed_customers pr.2
              if union.isEmpty then acc
              else
                let intersection := sinter seed_customers pr.2
                if intersection.isEmpty then acc
                else acc + (intersection.length : ℚ) / (union.length : ℚ))
          0
        if 0 < acc then alSet scores pr.1 acc else scores)
    []

/-- `_personalized_pagerank`. -/
def personalized_pagerank (e : RecommendationEngine) (seeds : List String) :
    List (String × ℚ) :=
  let pers0 := e.product_ids.map (fun pid => (pid, (0 : ℚ)))
  if seeds.isEmpty then e.global_pagerank
  else
    let seed_weight := 1 / (seeds.length : ℚ)
    e.run_pagerank (seeds.foldl (fun pers seed => alSet pers seed seed_weight) pers0)

/-- `_normalize_scores`. -/
def normalize_scores (scores : List (String × ℚ)) : List (String × ℚ) :=
  if scores.isEmpty then []
  else
    let max_value := (scores.map Prod.snd).foldl max ((scores.map Prod.snd).headD 0)
    if max_value = 0 then scores.map (fun kv => (kv.1, (0 : ℚ)))
    else scores.map (fun kv => (kv.1, kv.2 / max_value))

/-- The sort key of `_combine_strategies`: ascending `(-score, product_id)`. -/
def recLeb (a b : Recommendation) : Bool :=
  decide (b.score < a.score) || (decide (a.score = b.score) && decide (a.product_id ≤ b.product_id))

/-- The sort key of `_top_items`: ascending `(-score, product_id)` on pairs. -/
def pairLeb (a b : String × ℚ) : Bool :=
  decide (b.2 < a.2) || (decide (a.2 = b.2) && decide (a.1 ≤ b.1))

/-- `_combine_strategies`. -/
def combine_strategies (strategies : List (String × List (String × ℚ)))
    (exclude : List String) : List Recommendation :=
  let combined : List (String × List (String × ℚ)) :=
    strategies.foldl
      (fun combined ns =>
        let weight := lookupD STRATEGY_WEIGHTS ns.1 0
        if weight = 0 then combined
        else
          ns.2.foldl
            (fun combined pv =>
              if pv.1 ∈ exclude ∨ pv.2 ≤ 0 then combined
              else
                let product_scores := lookupD combined pv.1 []
                alSet combined pv.1 (alSet product_scores ns.1 (pv.2 * weight)))
            combined)
      []
  sortBy recLeb
    (combined.map (fun pc => ⟨pc.1, alSum pc.2, pc.2⟩))

/-- `_top_items`. -/
def top_items (scores : List (String × ℚ)) (top_n : Nat) (exclude : List String) :
    List (String × ℚ) :=
  (sortBy pairLeb (scores.filter (fun item => item.1 ∉ exclude))).take top_n

/-- `_fallback_top_pagerank`. -/
def fallback_top_pagerank (e : RecommendationEngine) (top_n : Nat) :
    List Recommendation :=
  (top_items e.global_pagerank top_n []).map
    (fun item => ⟨item.1, item.2, [("global_pagerank", item.2)]⟩)

/-- The `seeds = purchased or interacted` seed set of both public methods. -/
def seeds_of (e : RecommendationEngine) (customer_id : String) : List String :=
  let purchased := e.purchased_products customer_id
  if purchased.isEmpty then e.interacted_products customer_id else purchased

/-- The full candidate ranking that `recommend_for_customer` truncates: the
fused ranking of `_combine_strategies` on the seeds path, and the complete
sorted global-PageRank ranking on the cold-start path.  Its length is the
number of products that receive a nonzero fused score (each fused candidate
carries only strictly positive weighted contributions, and a product outside
it receives no contribution at all). -/
def candidate_recs (e : RecommendationEngine) (customer_id : String) :
    List Recommendation :=
  let purchased := e.purchased_products customer_id
  let interacted := e.interacted_products customer_id
  let seeds := if purchased.isEmpty then interacted else purchased
  if seeds.isEmpty then
    (sortBy pairLeb (e.global_pagerank.filter
      (fun item => item.1 ∉ ([] : List String)))).map
      (fun it => ⟨it.1, it.2, [("global_pagerank", it.2)]⟩)
  else
    combine_strategies
      [("co_occurrence", normalize_scores (e.co_occurrence_scores seeds)),
       ("similarity", normalize_scores (e.similarity_scores seeds)),
       ("personalized_pagerank", normalize_scores (e.personalized_pagerank seeds))]
      (sunion purchased interacted)

/-- `recommend_for_customer`.  The `ValueError` of `_ensure_known_customer`
becomes the `.error` branch. -/
def recommend_for_customer (e : RecommendationEngine) (customer_id : String)
    (top_n : Nat) : Except RecError (List Recommendation) :=
  if customer_id ∈ e.graph.dataset.customer_keys then
    let purchased := e.purchased_products customer_id
    let interacted := e.interacted_products customer_id
    let seeds := if purchased.isEmpty then interacted else purchased
    if seeds.isEmpty then .ok (e.fallback_top_pagerank top_n)
    else
      let strategies :=
        [("co_occurrence", normalize_scores (e.co_occurrence_scores seeds)),
         ("similarity", normalize_scores (e.similarity_scores seeds)),
         ("personalized_pagerank", normalize_scores (e.personalized_pagerank seeds))]
      let exclude := sunion purchased interacted
      .ok ((combine_strategies strategies exclude).take top_n)
  else .error (.UnknownEntity customer_id)

/-- `strategy_breakdown`. -/
def strategy_breakdown (e : RecommendationEngine) (customer_id : String)
    (top_n : Nat) : Except RecError (List (String × List (String × ℚ))) :=
  if customer_id ∈ e.graph.dataset.customer_keys then
    let purchased := e.purchased_products customer_id
    let interacted := e.interacted_products customer_id
    let seeds := if purchased.isEmpty then interacted else purchased
    if seeds.isEmpty then
      .ok [("global_pagerank", top_items e.global_pagerank top_n [])]
    else
      let exclude := sunion purchased interacted
      .ok [("co_occurrence", top_items (e.co_occurrence_scores seeds) top_n exclude),
           ("similarity", top_items (e.similarity_scores seeds) top_n exclude),
           ("personalized_pagerank", top_items (e.personalized_pagerank seeds) top_n exclude)]
  else .error (.UnknownEntity customer_id)

end RecommendationEngine

/-! ## The reference dataset (`data.load_dataset`) -/

/-- `data.load_dataset()`: the toy dataset seeded by the repository. -/
def refDataset : Dataset :=
  { customers :=
      [("C1", ⟨"C1", "Alice", "2024-01-02"⟩),
       ("C2", ⟨"C2", "Bob", "2024-02-11"⟩),
       ("C3", ⟨"C3", "Chloe", "2024-03-05"⟩)]
  , categories := [("CAT1", "Electronics"), ("CAT2", "Books")]
  , products :=
      [("P1", ⟨"P1", "Wireless Mouse", 2999/100, "CAT1"⟩),
       ("P2", ⟨"P2", "USB-C Hub", 49, "CAT1"⟩),
       ("P3", ⟨"P3", "Graph Databases Book", 39, "CAT2"⟩),
       ("P4", ⟨"P4", "Mechanical Keyboard", 89, "CAT1"⟩)]
  , orders :=
      [("O1", ⟨"O1", "C1", "2024-04-01T10:15:00Z", [⟨"P1", 1⟩, ⟨"P2", 1⟩]⟩),
       ("O2", ⟨"O2", "C2", "2024-04-02T12:30:00Z", [⟨"P3", 1⟩]⟩),
       ("O3", ⟨"O3", "C1", "2024-04-05T08:05:00Z", [⟨"P4", 1⟩, ⟨"P2", 1⟩]⟩)]
  , events :=
      [⟨"E1", "C1", "P3", "view", "2024-04-01T09:00:00Z"⟩,
       ⟨"E2", "C1", "P3", "click", "2024-04-01T09:01:00Z"⟩,
       ⟨"E3", "C3", "P1", "view", "2024-04-03T16:20:00Z"⟩,
       ⟨"E4", "C2", "P2", "view", "2024-04-03T12:00:00Z"⟩,
       ⟨"E5", "C2", "P4", "add_to_cart", "2024-04-03T12:10:00Z"⟩] }

/-- The engine of `main.py`: default parameters over the reference graph. -/
def refEngine : RecommendationEngine := mkEngine (build_graph refDataset)

/-! ## Small fixtures used to instantiate the theorems on concrete inputs -/

/-- A two-customer fixture: `C1` bought `P1`; `C2` bought `P1` and `P2`
together, so `P2` is a co-purchase candidate for `C1`. -/
def wDataset : Dataset :=
  { customers := [("C1", ⟨"C1", "Wendy", "2024-01-01"⟩), ("C2", ⟨"C2", "Walt", "2024-01-02"⟩)]
  , categories := [("CAT1", "Gear")]
  , products := [("P1", ⟨"P1", "Alpha", 1, "CAT1"⟩), ("P2", ⟨"P2", "Beta", 2, "CAT1"⟩)]
  , orders := [("O1", ⟨"O1", "C1", "t1", [⟨"P1", 1⟩]⟩), ("O2", ⟨"O2", "C2", "t2", [⟨"P1", 1⟩, ⟨"P2", 1⟩]⟩)]
  , events := [] }

/-- Engine over `wDataset`, run for a single power iteration so that the
personalized PageRank values stay small closed forms. -/
def wEngine : RecommendationEngine := ⟨build_graph wDataset, 17/20, 1/1000000, 1⟩

/-- A one-customer, one-product fixture with no orders and no events: the
cold-start situation. -/
def coldDataset : Dataset :=
  { customers := [("C1", ⟨"C1", "Cary", "2024-01-01"⟩)]
  , categories := [("CAT1", "Gear")]
  , products := [("P1", ⟨"P1", "Alpha", 1, "CAT1"⟩)]
  , orders := []
  , events := [] }

/-- Engine with the default parameters over `coldDataset`. -/
def coldEngine : RecommendationEngine := mkEngine (build_graph coldDataset)

/-- `coldDataset` plus a single event of an unknown type. -/
def unkDataset : Dataset :=
  { coldDataset with events := [⟨"E1", "C1", "P1", "mystery", "t3"⟩] }

/-- Engine with the default parameters over `unkDataset`. -/
def unkEngine : RecommendationEngine := mkEngine (build_graph unkDataset)

instance {ε α : Type} [DecidableEq ε] [DecidableEq α] : DecidableEq (Except ε α) := fun a b =>
  match a, b with
  | .ok x, .ok y =>
    if h : x = y then .isTrue (by rw [h]) else .isFalse (by intro hc; cases hc; exact h rfl)
  | .error x, .error y =>
    if h : x = y then .isTrue (by rw [h]) else .isFalse (by intro hc; cases hc; exact h rfl)
  | .ok _, .error _ => .isFalse (by intro hc; cases hc)
  | .error _, .ok _ => .isFalse (by intro hc; cases hc)

/-! ## Helper lemmas -/

/-- Every entry of `alSet m k v` is an entry of `m` or the pair `(k, v)`. -/
theorem mem_alSet {κ α : Type} [DecidableEq κ] (m : List (κ × α)) (k : κ) (v : α)
    (pr : κ × α) (h : pr ∈ alSet m k v) : pr ∈ m ∨ pr = (k, v) := by
  induction m with
  | nil =>
    simp only [alSet, List.mem_singleton] at h
    exact Or.inr h
  | cons hd tl ih =>
    simp only [alSet] at h
    by_cases hk : hd.1 = k
    · rw [if_pos hk] at h
      rcases List.mem_cons.mp h with h | h
      · exact Or.inr h
      · exact Or.inl (List.mem_cons_of_mem hd h)
    · rw [if_neg hk] at h
      rcases List.mem_cons.mp h with h | h
      · exact Or.inl (h ▸ List.mem_cons_self hd tl)
      · rcases ih h with h | h
        · exact Or.inl (List.mem_cons_of_mem hd h)
        · exact Or.inr h

/-- Dividing every element of a list divides its sum. -/
theorem list_sum_div (l : List ℚ) (t : ℚ) :
    (l.map (fun x => x / t)).sum = l.sum / t := by
  induction l with
  | nil => simp
  | cons hd tl ih => simp [ih, add_div]

/-- The value sum of a row normalized by its value sum. -/
theorem alSum_normalized_row (row : List (String × ℚ)) (t : ℚ) :
    alSum (row.map (fun nw => (nw.1, nw.2 / t))) = alSum row / t := by
  unfold alSum
  rw [List.map_map, ← list_sum_div (row.map Prod.snd) t, List.map_map]
  rfl

/-- Every row of `build_adjacency` is empty or has value sum exactly 1. -/
theorem build_adjacency_rows (pids : List String) (co : List (String × List (String × ℚ)))
    (pr : String × List (String × ℚ)) (hm : pr ∈ build_adjacency pids co) :
    pr.2 = [] ∨ alSum pr.2 = 1 := by
  suffices h : ∀ (co : List (String × List (String × ℚ)))
      (init : List (String × List (String × ℚ))),
      (∀ q ∈ init, q.2 = [] ∨ alSum q.2 = 1) →
      ∀ q ∈ co.foldl
        (fun adj pr =>
          let total := alSum pr.2
          if total = 0 then adj
          else alSet adj pr.1 (pr.2.map (fun nw => (nw.1, nw.2 / total)))) init,
      q.2 = [] ∨ alSum q.2 = 1 by
    refine h co (initial_adjacency pids) ?_ pr hm
    intro q hq
    obtain ⟨pid, _, rfl⟩ := List.mem_map.mp hq
    exact Or.inl rfl
  intro co
  induction co with
  | nil => intro init hinit q hq; exact hinit q hq
  | cons hd tl ih =>
    intro init hinit q hq
    simp only [List.foldl_cons] at hq
    refine ih _ ?_ q hq
    intro q' hq'
    by_cases ht : alSum hd.2 = 0
    · rw [if_pos ht] at hq'
      exact hinit q' hq'
    · rw [if_neg ht] at hq'
      rcases mem_alSet _ _ _ _ hq' with h | h
      · exact hinit q' h
      · right
        rw [h]
        show alSum (hd.2.map (fun nw => (nw.1, nw.2 / alSum hd.2))) = 1
        rw [alSum_normalized_row, div_self ht]

/-- Membership in `sinsert`. -/
theorem mem_sinsert {κ : Type} [DecidableEq κ] (s : List κ) (x y : κ) :
    y ∈ sinsert s x ↔ y ∈ s ∨ y = x := by
  unfold sinsert
  by_cases hx : x ∈ s
  · rw [if_pos hx]
    constructor
    · exact Or.inl
    · rintro (h | rfl)
      · exact h
      · exact hx
  · rw [if_neg hx]
    simp [List.mem_append]

/-- Membership in `sunion`. -/
theorem mem_sunion {κ : Type} [DecidableEq κ] (a b : List κ) (x : κ) :
    x ∈ sunion a b ↔ x ∈ a ∨ x ∈ b := by
  unfold sunion
  induction b generalizing a with
  | nil => simp
  | cons hd tl ih =>
    simp only [List.foldl_cons, ih, mem_sinsert, List.mem_cons]
    tauto

/-- Membership in `sortedInsert`. -/
theorem mem_sortedInsert {α : Type} (le : α → α → Bool) (x a : α) (l : List α) :
    a ∈ sortedInsert le x l ↔ a = x ∨ a ∈ l := by
  induction l with
  | nil => simp [sortedInsert]
  | cons hd tl ih =>
    unfold sortedInsert
    by_cases hle : le x hd = true
    · rw [if_pos hle]
      simp
    · rw [if_neg hle]
      simp only [List.mem_cons, ih]
      tauto

/-- Membership in `sortBy`. -/
theorem mem_sortBy {α : Type} (le : α → α → Bool) (a : α) (l : List α) :
    a ∈ sortBy le l ↔ a ∈ l := by
  induction l with
  | nil => simp [sortBy]
  | cons hd tl ih =>
    unfold sortBy
    rw [mem_sortedInsert, ih, List.mem_cons]

/-- `sortBy` preserves length. -/
theorem length_sortBy {α : Type} (le : α → α → Bool) (l : List α) :
    (sortBy le l).length = l.length := by
  have hins : ∀ (x : α) (m : List α), (sortedInsert le x m).length = m.length + 1 := by
    intro x m
    induction m with
    | nil => rfl
    | cons hd tl ih =>
      unfold sortedInsert
      by_cases h : le x hd = true
      · rw [if_pos h]; rfl
      · rw [if_neg h]
        simp [ih]
  induction l with
  | nil => rfl
  | cons hd tl ih =>
    unfold sortBy
    rw [hins, ih]
    rfl

/-- Inserting into a list sorted by a total transitive comparison keeps it
sorted. -/
theorem pairwise_sortedInsert {α : Type} (le : α → α → Bool)
    (htot : ∀ a b, le a b = false → le b a = true)
    (htrans : ∀ a b c, le a b = true → le b c = true → le a c = true)
    (x : α) (l : List α) (hl : l.Pairwise (fun a b => le a b = true)) :
    (sortedInsert le x l).Pairwise (fun a b => le a b = true) := by
  induction l with
  | nil => simp [sortedInsert]
  | cons hd tl ih =>
    obtain ⟨hhd, htl⟩ := List.pairwise_cons.mp hl
    unfold sortedInsert
    by_cases hle : le x hd = true
    · rw [if_pos hle]
      refine List.pairwise_cons.mpr ⟨?_, hl⟩
      intro b hb
      rcases List.mem_cons.mp hb with rfl | hb
      · exact hle
      · exact htrans x hd b hle (hhd b hb)
    · rw [if_neg hle]
      refine List.pairwise_cons.mpr ⟨?_, ih htl⟩
      intro b hb
      rcases (mem_sortedInsert le x b tl).mp hb with rfl | hb
      · exact htot b hd (Bool.eq_false_iff.mpr hle)
      · exact hhd b hb

/-- `sortBy` with a total transitive comparison sorts. -/
theorem pairwise_sortBy {α : Type} (le : α → α → Bool)
    (htot : ∀ a b, le a b = false → le b a = true)
    (htrans : ∀ a b c, le a b = true → le b c = true → le a c = true)
    (l : List α) : (sortBy le l).Pairwise (fun a b => le a b = true) := by
  induction l with
  | nil => exact List.Pairwise.nil
  | cons hd tl ih => exact pairwise_sortedInsert le htot htrans hd (sortBy le tl) ih

/-- Writing back the looked-up value of a key leaves the list unchanged when
the key is present, and appends the default otherwise. -/
theorem alSet_lookupD_self {κ : Type} [DecidableEq κ] (m : List (κ × ℚ)) (k : κ) :
    alSet m k (lookupD m k 0) = m ∨ alSet m k (lookupD m k 0) = m ++ [(k, 0)] := by
  induction m with
  | nil => exact Or.inr rfl
  | cons hd tl ih =>
    by_cases hk : hd.1 = k
    · left
      show (if hd.1 = k then (k, lookupD (hd :: tl) k 0) :: tl
        else hd :: alSet tl k (lookupD (hd :: tl) k 0)) = hd :: tl
      rw [if_pos hk]
      show (k, if hd.1 = k then hd.2 else lookupD tl k 0) :: tl = hd :: tl
      rw [if_pos hk, ← hk]
    · show (if hd.1 = k then (k, lookupD (hd :: tl) k 0) :: tl
        else hd :: alSet tl k (lookupD (hd :: tl) k 0)) = hd :: tl
        ∨ (if hd.1 = k then (k, lookupD (hd :: tl) k 0) :: tl
        else hd :: alSet tl k (lookupD (hd :: tl) k 0)) = hd :: tl ++ [(k, 0)]
      rw [if_neg hk]
      have hl : lookupD (hd :: tl) k 0 = lookupD tl k 0 := by
        show (if hd.1 = k then hd.2 else lookupD tl k 0) = lookupD tl k 0
        rw [if_neg hk]
      rw [hl]
      rcases ih with h | h
      · exact Or.inl (by rw [h])
      · exact Or.inr (by rw [h]; rfl)

/-- A property preserved by every step of a fold holds at its result. -/
theorem foldl_preserve {α β : Type} (P : β → Prop) (f : β → α → β)
    (hf : ∀ b a, P b → P (f b a)) :
    ∀ (l : List α) (b : β), P b → P (l.foldl f b) := by
  intro l
  induction l with
  | nil => exact fun b hb => hb
  | cons hd tl ih => exact fun b hb => ih (f b hd) (hf b hd hb)

namespace RecommendationEngine

/-- The boolean key of `_combine_strategies`' sort, as an order property:
strictly greater score first, ties by ascending product identifier. -/
theorem recLeb_iff (a b : Recommendation) :
    recLeb a b = true
      ↔ (b.score < a.score ∨ (a.score = b.score ∧ a.product_id ≤ b.product_id)) := by
  simp [recLeb]

/-- `recLeb` is total. -/
theorem recLeb_total (a b : Recommendation) (h : recLeb a b = false) :
    recLeb b a = true := by
  rw [recLeb_iff]
  have hno : ¬ (b.score < a.score ∨ (a.score = b.score ∧ a.product_id ≤ b.product_id)) := by
    intro hx
    rw [(recLeb_iff a b).mpr hx] at h
    exact Bool.noConfusion h
  push_neg at hno
  rcases lt_trichotomy a.score b.score with hlt | heq | hgt
  · exact Or.inl hlt
  · exact Or.inr ⟨heq.symm, le_of_lt (hno.2 heq)⟩
  · exact absurd hgt (not_lt.mpr hno.1)

/-- `recLeb` is transitive. -/
theorem recLeb_trans (a b c : Recommendation) (hab : recLeb a b = true)
    (hbc : recLeb b c = true) : recLeb a c = true := by
  rw [recLeb_iff] at hab hbc ⊢
  rcases hab with hab | ⟨hab, hab'⟩
  · rcases hbc with hbc | ⟨hbc, _⟩
    · exact Or.inl (lt_trans hbc hab)
    · exact Or.inl (hbc ▸ hab)
  · rcases hbc with hbc | ⟨hbc, hbc'⟩
    · exact Or.inl (hab ▸ hbc)
    · exact Or.inr ⟨hab.trans hbc, le_trans hab' hbc'⟩

/-- The boolean key of `_top_items`' sort, as an order property. -/
theorem pairLeb_iff (a b : String × ℚ) :
    pairLeb a b = true ↔ (b.2 < a.2 ∨ (a.2 = b.2 ∧ a.1 ≤ b.1)) := by
  simp [pairLeb]

/-- `pairLeb` is total. -/
theorem pairLeb_total (a b : String × ℚ) (h : pairLeb a b = false) :
    pairLeb b a = true := by
  rw [pairLeb_iff]
  have hno : ¬ (b.2 < a.2 ∨ (a.2 = b.2 ∧ a.1 ≤ b.1)) := by
    intro hx
    rw [(pairLeb_iff a b).mpr hx] at h
    exact Bool.noConfusion h
  push_neg at hno
  rcases lt_trichotomy a.2 b.2 with hlt | heq | hgt
  · exact Or.inl hlt
  · exact Or.inr ⟨heq.symm, le_of_lt (hno.2 heq)⟩
  · exact absurd hgt (not_lt.mpr hno.1)

/-- `pairLeb` is transitive. -/
theorem pairLeb_trans (a b c : String × ℚ) (hab : pairLeb a b = true)
    (hbc : pairLeb b c = true) : pairLeb a c = true := by
  rw [pairLeb_iff] at hab hbc ⊢
  rcases hab with hab | ⟨hab, hab'⟩
  · rcases hbc with hbc | ⟨hbc, _⟩
    · exact Or.inl (lt_trans hbc hab)
    · exact Or.inl (hbc ▸ hab)
  · rcases hbc with hbc | ⟨hbc, hbc'⟩
    · exact Or.inl (hab ▸ hbc)
    · exact Or.inr ⟨hab.trans hbc, le_trans hab' hbc'⟩

/-- Every product named by `_combine_strategies` comes from outside the
exclusion set: the fold only ever inserts keys that pass the
`product_id in exclude` guard. -/
theorem combine_strategies_not_excluded (strategies : List (String × List (String × ℚ)))
    (exclude : List String) (r : Recommendation)
    (hr : r ∈ combine_strategies strategies exclude) : r.product_id ∉ exclude := by
  unfold combine_strategies at hr
  rw [mem_sortBy] at hr
  obtain ⟨pc, hpc, rfl⟩ := List.mem_map.mp hr
  have h := foldl_preserve
    (fun (combined : List (String × List (String × ℚ))) => ∀ q ∈ combined, q.1 ∉ exclude)
    (fun combined ns =>
      let weight := lookupD STRATEGY_WEIGHTS ns.1 0
      if weight = 0 then combined
      else
        ns.2.foldl
          (fun combined pv =>
            if pv.1 ∈ exclude ∨ pv.2 ≤ 0 then combined
            else
              let product_scores := lookupD combined pv.1 []
              alSet combined pv.1 (alSet product_scores ns.1 (pv.2 * weight)))
          combined)
    ?_ strategies [] (by intro q hq; cases hq)
  · exact h pc hpc
  · intro combined ns hcomb
    dsimp only
    by_cases hw : lookupD STRATEGY_WEIGHTS ns.1 0 = 0
    · rw [if_pos hw]
      exact hcomb
    · rw [if_neg hw]
      refine foldl_preserve
        (fun (c : List (String × List (String × ℚ))) => ∀ q ∈ c, q.1 ∉ exclude)
        _ ?_ ns.2 combined hcomb
      intro b pv hb
      dsimp only
      by_cases hskip : pv.1 ∈ exclude ∨ pv.2 ≤ 0
      · rw [if_pos hskip]
        exact hb
      · rw [if_neg hskip]
        intro q hq
        rcases mem_alSet _ _ _ _ hq with h | h
        · exact hb q h
        · rw [h]
          intro hco
          exact hskip (Or.inl hco)

/-- When the customer is known, `recommend_for_customer` always succeeds. -/
theorem rec_ok_exists (e : RecommendationEngine) (cid : String) (top_n : Nat)
    (hc : cid ∈ e.graph.dataset.customer_keys) :
    ∃ l, e.recommend_for_customer cid top_n = .ok l := by
  simp only [recommend_for_customer, if_pos hc]
  by_cases hs : (List.isEmpty
      (if (e.purchased_products cid).isEmpty then e.interacted_products cid
        else e.purchased_products cid)) = true
  · rw [if_pos hs]; exact ⟨_, rfl⟩
  · rw [if_neg hs]; exact ⟨_, rfl⟩

/-- When the customer is known, `strategy_breakdown` always succeeds. -/
theorem bd_ok_exists (e : RecommendationEngine) (cid : String) (top_n : Nat)
    (hc : cid ∈ e.graph.dataset.customer_keys) :
    ∃ m, e.strategy_breakdown cid top_n = .ok m := by
  simp only [strategy_breakdown, if_pos hc]
  by_cases hs : (List.isEmpty
      (if (e.purchased_products cid).isEmpty then e.interacted_products cid
        else e.purchased_products cid)) = true
  · rw [if_pos hs]; exact ⟨_, rfl⟩
  · rw [if_neg hs]; exact ⟨_, rfl⟩

end RecommendationEngine

/-! ## Claims -/

namespace RecommendationEngine

/-- If the seed set of a customer is empty, so are both the purchased and
the interacted sets (`seeds = purchased or interacted`). -/
theorem seeds_empty_both_empty (e : RecommendationEngine) (cid : String)
    (hs : (List.isEmpty
      (if (e.purchased_products cid).isEmpty then e.interacted_products cid
        else e.purchased_products cid)) = true) :
    e.purchased_products cid = [] ∧ e.interacted_products cid = [] := by
  by_cases hp : (e.purchased_products cid).isEmpty = true
  · rw [if_pos hp] at hs
    exact ⟨List.isEmpty_iff.mp hp, List.isEmpty_iff.mp hs⟩
  · rw [if_neg hp] at hs
    exact absurd hs hp

/-- Every product returned by `recommend_for_customer` lies outside both the
purchased set and the interacted set of a customer: on the fused path the
exclusion filter removes them, and on the cold-start path both sets are
empty. -/
theorem rec_output_not_excluded (e : RecommendationEngine) (cid : String) (top_n : Nat)
    (l : List Recommendation) (h : e.recommend_for_customer cid top_n = .ok l)
    (r : Recommendation) (hr : r ∈ l) :
    r.product_id ∉ e.purchased_products cid
      ∧ r.product_id ∉ e.interacted_products cid := by
  by_cases hc : cid ∈ e.graph.dataset.customer_keys
  · simp only [recommend_for_customer, if_pos hc] at h
    by_cases hs : (List.isEmpty
        (if (e.purchased_products cid).isEmpty then e.interacted_products cid
          else e.purchased_products cid)) = true
    · obtain ⟨hp, hi⟩ := seeds_empty_both_empty e cid hs
      rw [hp, hi]
      exact ⟨List.not_mem_nil _, List.not_mem_nil _⟩
    · rw [if_neg hs] at h
      have hl := (Except.ok.inj h).symm
      have hmem : r ∈ combine_strategies
          [("co_occurrence", normalize_scores (e.co_occurrence_scores
              (if (e.purchased_products cid).isEmpty then e.interacted_products cid
                else e.purchased_products cid))),
           ("similarity", normalize_scores (e.similarity_scores
              (if (e.purchased_products cid).isEmpty then e.interacted_products cid
                else e.purchased_products cid))),
           ("personalized_pagerank", normalize_scores (e.personalized_pagerank
              (if (e.purchased_products cid).isEmpty then e.interacted_products cid
                else e.purchased_products cid)))]
          (sunion (e.purchased_products cid) (e.interacted_products cid)) :=
        List.take_subset _ _ (hl ▸ hr)
      have hnot := combine_strategies_not_excluded _ _ r hmem
      constructor
      · intro hx
        exact hnot ((mem_sunion _ _ _).mpr (Or.inl hx))
      · intro hx
        exact hnot ((mem_sunion _ _ _).mpr (Or.inr hx))
  · simp only [recommend_for_customer, if_neg hc] at h
    exact Except.noConfusion h

/-- **C1.**  For every customer whose recommendation call succeeds, the
returned list contains no product of the customer's purchased set or
interacted set; in particular no seed product ever appears in the output. -/
theorem C1_no_seed_in_output (e : RecommendationEngine) (cid : String) (top_n : Nat)
    (l : List Recommendation) (h : e.recommend_for_customer cid top_n = .ok l)
    (r : Recommendation) (hr : r ∈ l) :
    r.product_id ∉ e.purchased_products cid
      ∧ r.product_id ∉ e.interacted_products cid :=
  rec_output_not_excluded e cid top_n l h r hr

/-- Witness for **C1**: in the fixture `wEngine`, customer `"C1"` receives
the single recommendation `"P2"`, which it neither purchased nor touched. -/
theorem C1_no_seed_in_output_witness :
    (wEngine.recommend_for_customer "C1" 3 =
        .ok [⟨"P2", 106/115, [("co_occurrence", 2/5), ("similarity", 3/10),
          ("personalized_pagerank", 51/230)]⟩]
      ∧ (⟨"P2", 106/115, [("co_occurrence", 2/5), ("similarity", 3/10),
          ("personalized_pagerank", 51/230)]⟩ : Recommendation) ∈
        [(⟨"P2", 106/115, [("co_occurrence", 2/5), ("similarity", 3/10),
          ("personalized_pagerank", 51/230)]⟩ : Recommendation)])
    ∧ ("P2" ∉ wEngine.purchased_products "C1"
      ∧ "P2" ∉ wEngine.interacted_products "C1") :=
  ⟨⟨by with_unfolding_all decide, by with_unfolding_all decide⟩,
    C1_no_seed_in_output wEngine "C1" 3
      [⟨"P2", 106/115, [("co_occurrence", 2/5), ("similarity", 3/10),
        ("personalized_pagerank", 51/230)]⟩]
      (by with_unfolding_all decide)
      ⟨"P2", 106/115, [("co_occurrence", 2/5), ("similarity", 3/10),
        ("personalized_pagerank", 51/230)]⟩
      (by with_unfolding_all decide)⟩

/-- **C2.**  For every customer identifier absent from the dataset's
customers, both `recommend_for_customer` and `strategy_breakdown` fail with
the `UnknownEntity` error, and for every present identifier neither does
(raises-iff, for every engine and every `top_n`). -/
theorem C2_unknown_customer_error_iff (e : RecommendationEngine) (cid : String) (top_n : Nat) :
    (e.recommend_for_customer cid top_n = .error (.UnknownEntity cid)
      ↔ cid ∉ e.graph.dataset.customer_keys)
    ∧ (e.strategy_breakdown cid top_n = .error (.UnknownEntity cid)
      ↔ cid ∉ e.graph.dataset.customer_keys) := by
  constructor
  · by_cases hc : cid ∈ e.graph.dataset.customer_keys
    · obtain ⟨l, hl⟩ := rec_ok_exists e cid top_n hc
      rw [hl]
      exact ⟨fun h => Except.noConfusion h, fun h => absurd hc h⟩
    · have hrw : e.recommend_for_customer cid top_n = .error (.UnknownEntity cid) := by
        simp only [recommend_for_customer, if_neg hc]
      rw [hrw]
      exact iff_of_true rfl hc
  · by_cases hc : cid ∈ e.graph.dataset.customer_keys
    · obtain ⟨m, hm⟩ := bd_ok_exists e cid top_n hc
      rw [hm]
      exact ⟨fun h => Except.noConfusion h, fun h => absurd hc h⟩
    · have hrw : e.strategy_breakdown cid top_n = .error (.UnknownEntity cid) := by
        simp only [strategy_breakdown, if_neg hc]
      rw [hrw]
      exact iff_of_true rfl hc

/-- **C4.**  A customer with empty purchased and interacted sets receives
exactly the top-N of the cached global PageRank, each recommendation carrying
the single contribution key `"global_pagerank"` whose value is its score. -/
theorem C4_cold_start_global (e : RecommendationEngine) (cid : String) (top_n : Nat)
    (hc : cid ∈ e.graph.dataset.customer_keys)
    (hp : e.purchased_products cid = [])
    (hi : e.interacted_products cid = []) :
    e.recommend_for_customer cid top_n = .ok ((top_items e.global_pagerank top_n []).map
      (fun it => ⟨it.1, it.2, [("global_pagerank", it.2)]⟩))
    ∧ ∀ r ∈ ((top_items e.global_pagerank top_n []).map
      (fun it => (⟨it.1, it.2, [("global_pagerank", it.2)]⟩ : Recommendation))),
      r.contributions = [("global_pagerank", r.score)] := by
  constructor
  · simp only [recommend_for_customer, if_pos hc, hp, hi, List.isEmpty_nil, if_true]
    rfl
  · intro r hr
    obtain ⟨it, _, rfl⟩ := List.mem_map.mp hr
    rfl

/-- **C7.**  In the `GraphData` produced by `build_graph`, every product
whose adjacency row is non-empty has row value sum equal to 1 within
tolerance `1e-9` (in the exact rational model the sum is exactly 1). -/
theorem C7_adjacency_rows_normalized (ds : Dataset) (pr : String × List (String × ℚ))
    (hm : pr ∈ (build_graph ds).product_adjacency) (hne : pr.2 ≠ []) :
    |alSum pr.2 - 1| < 1/1000000000 := by
  have hm' : pr ∈ build_adjacency ds.product_ids
      (ds.events.foldl eventStep (ds.orders.foldl orderStep ⟨[], [], [], []⟩)).co := by
    exact hm
  have h := build_adjacency_rows _ _ pr hm'
  rcases h with h | h
  · exact absurd h hne
  · rw [h]
    norm_num

/-- Witness for **C7**: the row of product `"P1"` in the reference graph. -/
theorem C7_adjacency_rows_normalized_witness :
    (("P1", [("P2", (1 : ℚ))]) ∈ (build_graph refDataset).product_adjacency
      ∧ [("P2", (1 : ℚ))] ≠ [])
    ∧ |alSum [("P2", (1 : ℚ))] - 1| < 1/1000000000 :=
  ⟨⟨by with_unfolding_all decide, by with_unfolding_all decide⟩,
    C7_adjacency_rows_normalized refDataset ("P1", [("P2", 1)])
      (by with_unfolding_all decide) (by with_unfolding_all decide)⟩

/-- Witness for **C4**: the cold-start fixture `coldEngine` with customer
`"C1"`, which has no orders and no events. -/
theorem C4_cold_start_global_witness :
    ("C1" ∈ coldEngine.graph.dataset.customer_keys
      ∧ coldEngine.purchased_products "C1" = []
      ∧ coldEngine.interacted_products "C1" = [])
    ∧ (coldEngine.recommend_for_customer "C1" 3 =
        .ok ((top_items coldEngine.global_pagerank 3 []).map
          (fun it => ⟨it.1, it.2, [("global_pagerank", it.2)]⟩))
      ∧ ∀ r ∈ ((top_items coldEngine.global_pagerank 3 []).map
          (fun it => (⟨it.1, it.2, [("global_pagerank", it.2)]⟩ : Recommendation))),
          r.contributions = [("global_pagerank", r.score)]) :=
  ⟨⟨by with_unfolding_all decide, by with_unfolding_all decide, by with_unfolding_all decide⟩,
    C4_cold_start_global coldEngine "C1" 3 (by with_unfolding_all decide)
      (by with_unfolding_all decide) (by with_unfolding_all decide)⟩

/-- **C5, counterexample.**  On the reference dataset, the output of
`recommend_for_customer` for customer `"C1"` contains no entry for `"P3"` at
all — contradicting the claim that `P3` appears with a nonzero
`"similarity"` or `"co_occurrence"` contribution.  (`"P3"` is in `C1`'s
`customer_products` set — event incidence counts — hence a seed, and seeds
are excluded.) -/
theorem C5_counterexample :
    ((refEngine.recommend_for_customer "C1" 3).toOption.getD []).all
      (fun r => r.product_id != "P3") = true := by
  obtain ⟨l, hl⟩ := rec_ok_exists refEngine "C1" 3 (by with_unfolding_all decide)
  rw [hl]
  simp only [Except.toOption, Option.getD_some, List.all_eq_true]
  intro r hr
  have hnp := (rec_output_not_excluded refEngine "C1" 3 l hl r hr).1
  have hp3 : "P3" ∈ refEngine.purchased_products "C1" := by with_unfolding_all decide
  rw [bne_iff_ne]
  intro heq
  exact hnp (heq ▸ hp3)

/-- **C5, amended.**  On the reference dataset, `"P3"` is itself a seed of
customer `"C1"`: `customer_products` records event incidence, so `C1`'s
purchased set is `{P1, P2, P4, P3}`.  Consequently `P3` is excluded and
never appears in `recommend_for_customer`'s output for `"C1"`. -/
theorem C5_p3_is_seed_and_excluded :
    "P3" ∈ refEngine.purchased_products "C1"
    ∧ ((refEngine.recommend_for_customer "C1" 3).toOption.getD []).all
      (fun r => r.product_id != "P3") = true := by
  refine ⟨by with_unfolding_all decide, ?_⟩
  obtain ⟨l, hl⟩ := rec_ok_exists refEngine "C1" 3 (by with_unfolding_all decide)
  rw [hl]
  simp only [Except.toOption, Option.getD_some, List.all_eq_true]
  intro r hr
  have hnp := (rec_output_not_excluded refEngine "C1" 3 l hl r hr).1
  have hp3 : "P3" ∈ refEngine.purchased_products "C1" := by with_unfolding_all decide
  rw [bne_iff_ne]
  intro heq
  exact hnp (heq ▸ hp3)

/-- **C6, counterexample.**  Adding an event of unknown type is observable:
on `coldDataset` (one customer, one product, no orders, no events) customer
`"C1"` is a cold-start customer and receives the global top-1, but after
adding the event `("C1", "P1", "mystery")` the product `P1` becomes an
incidence seed and the output is empty.  This contradicts the claim that
such an event changes neither `recommend_for_customer` nor
`strategy_breakdown` for any customer. -/
theorem C6_counterexample :
    coldEngine.recommend_for_customer "C1" 3 ≠ unkEngine.recommend_for_customer "C1" 3 := by
  with_unfolding_all decide

/-- **C6, amended.**  An event whose type is not one of
view/click/add(-to-cart) maps to weight 0 and contributes no interaction
weight: appending it to any dataset leaves `interacted_products` unchanged
for every customer.  (It does, however, still record customer–product
incidence, which is why the full no-effect claim fails.) -/
theorem C6_unknown_event_no_signal (ds : Dataset) (ev : Event)
    (hunk : lookupD EVENT_WEIGHTS ev.event_type 0 = 0)
    (d t : ℚ) (mi : Nat) (cid : String) :
    interacted_products ⟨build_graph {ds with events := ds.events ++ [ev]}, d, t, mi⟩ cid
      = interacted_products ⟨build_graph ds, d, t, mi⟩ cid := by
  have hew : (build_graph {ds with events := ds.events ++ [ev]}).event_weights
      = alSet (build_graph ds).event_weights (ev.customer_id, ev.product_id)
          (lookupD (build_graph ds).event_weights (ev.customer_id, ev.product_id) 0) := by
    show (List.foldl eventStep
        (List.foldl orderStep ⟨[], [], [], []⟩ ds.orders) (ds.events ++ [ev])).ew = _
    rw [List.foldl_append]
    show alSet
      (List.foldl eventStep (List.foldl orderStep ⟨[], [], [], []⟩ ds.orders) ds.events).ew
      (ev.customer_id, ev.product_id)
      (lookupD
        (List.foldl eventStep (List.foldl orderStep ⟨[], [], [], []⟩ ds.orders) ds.events).ew
        (ev.customer_id, ev.product_id) 0 + lookupD EVENT_WEIGHTS ev.event_type 0) = _
    rw [hunk, add_zero]
    rfl
  unfold interacted_products
  show ((build_graph {ds with events := ds.events ++ [ev]}).event_weights.filter _).map _
    = ((build_graph ds).event_weights.filter _).map _
  rw [hew]
  rcases alSet_lookupD_self (build_graph ds).event_weights
    (ev.customer_id, ev.product_id) with h | h
  · rw [h]
  · rw [h, List.filter_append]
    simp

/-- Witness for the amended **C6**: appending the unknown-type event of
`unkDataset` to `coldDataset` leaves customer `"C1"`'s interacted set
unchanged. -/
theorem C6_unknown_event_no_signal_witness :
    lookupD EVENT_WEIGHTS "mystery" 0 = 0
    ∧ interacted_products
        ⟨build_graph {coldDataset with
          events := coldDataset.events ++ [⟨"E1", "C1", "P1", "mystery", "t3"⟩]},
          17/20, 1/1000000, 50⟩ "C1"
      = interacted_products ⟨build_graph coldDataset, 17/20, 1/1000000, 50⟩ "C1" :=
  ⟨by with_unfolding_all decide,
    C6_unknown_event_no_signal coldDataset ⟨"E1", "C1", "P1", "mystery", "t3"⟩
      (by with_unfolding_all decide) (17/20) (1/1000000) 50 "C1"⟩

/-- A successful `recommend_for_customer` call returns exactly the first
`top_n` entries of the full candidate ranking. -/
theorem rec_ok_eq_take (e : RecommendationEngine) (cid : String) (top_n : Nat)
    (l : List Recommendation) (h : e.recommend_for_customer cid top_n = .ok l) :
    l = (candidate_recs e cid).take top_n := by
  by_cases hc : cid ∈ e.graph.dataset.customer_keys
  · simp only [recommend_for_customer, if_pos hc] at h
    unfold candidate_recs
    by_cases hs : (List.isEmpty
        (if (e.purchased_products cid).isEmpty then e.interacted_products cid
          else e.purchased_products cid)) = true
    · rw [if_pos hs] at h ⊢
      rw [(Except.ok.inj h).symm]
      unfold fallback_top_pagerank top_items
      rw [List.map_take]
    · rw [if_neg hs] at h ⊢
      exact (Except.ok.inj h).symm
  · simp only [recommend_for_customer, if_neg hc] at h
    exact Except.noConfusion h

/-- The full candidate ranking is sorted by the fused sort key. -/
theorem candidate_recs_sorted (e : RecommendationEngine) (cid : String) :
    (candidate_recs e cid).Pairwise (fun a b => recLeb a b = true) := by
  unfold candidate_recs
  by_cases hs : (List.isEmpty
      (if (e.purchased_products cid).isEmpty then e.interacted_products cid
        else e.purchased_products cid)) = true
  · rw [if_pos hs]
    refine List.Pairwise.map _ ?_
      (pairwise_sortBy pairLeb pairLeb_total pairLeb_trans _)
    intro a b hab
    exact hab
  · rw [if_neg hs]
    unfold combine_strategies
    exact pairwise_sortBy recLeb recLeb_total recLeb_trans _

/-- **C8.**  The list returned by `recommend_for_customer` is sorted in
descending order of total score with ties broken by ascending product
identifier, and (the engine being a pure function of its inputs) two calls
with identical inputs produce identical output. -/
theorem C8_output_sorted_deterministic (e : RecommendationEngine) (cid : String)
    (top_n : Nat) (l : List Recommendation)
    (h : e.recommend_for_customer cid top_n = .ok l) :
    l.Pairwise (fun a b =>
        b.score < a.score ∨ (a.score = b.score ∧ a.product_id ≤ b.product_id))
    ∧ e.recommend_for_customer cid top_n = e.recommend_for_customer cid top_n := by
  refine ⟨?_, rfl⟩
  rw [rec_ok_eq_take e cid top_n l h]
  have hsorted := candidate_recs_sorted e cid
  have htake := hsorted.sublist (List.take_sublist top_n (candidate_recs e cid))
  exact htake.imp (fun hab => (recLeb_iff _ _).mp hab)

/-- Witness for **C8**: the fixture output for `wEngine`, customer `"C1"`. -/
theorem C8_output_sorted_deterministic_witness :
    wEngine.recommend_for_customer "C1" 3 =
      .ok [⟨"P2", 106/115, [("co_occurrence", 2/5), ("similarity", 3/10),
        ("personalized_pagerank", 51/230)]⟩]
    ∧ ([(⟨"P2", 106/115, [("co_occurrence", 2/5), ("similarity", 3/10),
        ("personalized_pagerank", 51/230)]⟩ : Recommendation)].Pairwise (fun a b =>
        b.score < a.score ∨ (a.score = b.score ∧ a.product_id ≤ b.product_id))
      ∧ wEngine.recommend_for_customer "C1" 3 = wEngine.recommend_for_customer "C1" 3) :=
  ⟨by with_unfolding_all decide,
    C8_output_sorted_deterministic wEngine "C1" 3
      [⟨"P2", 106/115, [("co_occurrence", 2/5), ("similarity", 3/10),
        ("personalized_pagerank", 51/230)]⟩]
      (by with_unfolding_all decide)⟩

/-- The weight table contains only `0.4` and `0.3`; any other name defaults
to 0. -/
theorem strategy_weight_cases (name : String) :
    lookupD STRATEGY_WEIGHTS name 0 = 0 ∨ lookupD STRATEGY_WEIGHTS name 0 = 2/5
      ∨ lookupD STRATEGY_WEIGHTS name 0 = 3/10 := by
  simp only [STRATEGY_WEIGHTS, lookupD]
  split_ifs <;> simp

/-- `lookupD` returns the default or a value bound in the list. -/
theorem lookupD_self_or_mem {κ α : Type} [DecidableEq κ] (m : List (κ × α)) (k : κ) (d : α) :
    lookupD m k d = d ∨ (k, lookupD m k d) ∈ m := by
  induction m with
  | nil => exact Or.inl rfl
  | cons hd tl ih =>
    show (if hd.1 = k then hd.2 else lookupD tl k d) = d
      ∨ (k, if hd.1 = k then hd.2 else lookupD tl k d) ∈ hd :: tl
    by_cases hk : hd.1 = k
    · rw [if_pos hk]
      right
      rw [← hk]
      exact List.mem_cons_self hd tl
    · rw [if_neg hk]
      rcases ih with h | h
      · exact Or.inl h
      · exact Or.inr (List.mem_cons_of_mem hd h)

/-- `alSet` never returns the empty list. -/
theorem alSet_ne_nil {κ α : Type} [DecidableEq κ] (m : List (κ × α)) (k : κ) (v : α) :
    alSet m k v ≠ [] := by
  cases m with
  | nil => exact List.cons_ne_nil _ _
  | cons hd tl =>
    show (if hd.1 = k then (k, v) :: tl else hd :: alSet tl k v) ≠ []
    by_cases hk : hd.1 = k
    · rw [if_pos hk]; exact List.cons_ne_nil _ _
    · rw [if_neg hk]; exact List.cons_ne_nil _ _

/-- Every entry produced by `_combine_strategies` has its score equal to the
sum of its contribution values, and every contribution value is the product
of a strictly positive normalized score with a strictly positive strategy
weight. -/
theorem combine_strategies_entries (strategies : List (String × List (String × ℚ)))
    (exclude : List String) (r : Recommendation)
    (hr : r ∈ combine_strategies strategies exclude) :
    r.score = alSum r.contributions ∧ r.contributions ≠ []
      ∧ ∀ c ∈ r.contributions, 0 < c.2 := by
  unfold combine_strategies at hr
  rw [mem_sortBy] at hr
  obtain ⟨pc, hpc, rfl⟩ := List.mem_map.mp hr
  refine ⟨rfl, ?_⟩
  have h := foldl_preserve
    (fun (combined : List (String × List (String × ℚ))) =>
      ∀ q ∈ combined, q.2 ≠ [] ∧ ∀ c ∈ q.2, 0 < c.2)
    (fun combined ns =>
      let weight := lookupD STRATEGY_WEIGHTS ns.1 0
      if weight = 0 then combined
      else
        ns.2.foldl
          (fun combined pv =>
            if pv.1 ∈ exclude ∨ pv.2 ≤ 0 then combined
            else
              let product_scores := lookupD combined pv.1 []
              alSet combined pv.1 (alSet product_scores ns.1 (pv.2 * weight)))
          combined)
    ?_ strategies [] (by intro q hq; cases hq)
  · exact h pc hpc
  · intro combined ns hcomb
    dsimp only
    by_cases hw : lookupD STRATEGY_WEIGHTS ns.1 0 = 0
    · rw [if_pos hw]
      exact hcomb
    · rw [if_neg hw]
      have hwpos : 0 < lookupD STRATEGY_WEIGHTS ns.1 0 := by
        rcases strategy_weight_cases ns.1 with h0 | h1 | h1
        · exact absurd h0 hw
        · rw [h1]; norm_num
        · rw [h1]; norm_num
      refine foldl_preserve
        (fun (c : List (String × List (String × ℚ))) =>
          ∀ q ∈ c, q.2 ≠ [] ∧ ∀ cch ∈ q.2, 0 < cch.2)
        _ ?_ ns.2 combined hcomb
      intro b pv hb
      dsimp only
      by_cases hskip : pv.1 ∈ exclude ∨ pv.2 ≤ 0
      · rw [if_pos hskip]
        exact hb
      · rw [if_neg hskip]
        have hvpos : 0 < pv.2 := by
          push_neg at hskip
          exact hskip.2
        intro q hq
        rcases mem_alSet _ _ _ _ hq with h | h
        · exact hb q h
        · rw [h]
          refine ⟨alSet_ne_nil _ _ _, ?_⟩
          intro cch hcch
          rcases mem_alSet _ _ _ _ hcch with h' | h'
          · rcases lookupD_self_or_mem b pv.1 ([] : List (String × ℚ)) with hd | hd
            · rw [hd] at h'
              cases h'
            · exact (hb _ hd).2 cch h'
          · rw [h']
            exact mul_pos hvpos hwpos

/-- **C9.**  The output of `recommend_for_customer` never exceeds `top_n`
entries, and it has fewer than `top_n` entries only when the full candidate
ranking — the products receiving a nonzero fused score — is itself shorter
than `top_n`; on the seeds path every candidate's fused score is strictly
positive. -/
theorem C9_top_n_bound (e : RecommendationEngine) (cid : String) (top_n : Nat)
    (l : List Recommendation) (h : e.recommend_for_customer cid top_n = .ok l) :
    l.length ≤ top_n
    ∧ (l.length < top_n → (candidate_recs e cid).length < top_n)
    ∧ (seeds_of e cid ≠ [] → ∀ r ∈ candidate_recs e cid, 0 < r.score) := by
  have hl := rec_ok_eq_take e cid top_n l h
  refine ⟨?_, ?_, ?_⟩
  · rw [hl]
    exact List.length_take_le top_n _
  · intro hlt
    rw [hl, List.length_take] at hlt
    omega
  · intro hseeds r hr
    have hs : ¬ (List.isEmpty
        (if (e.purchased_products cid).isEmpty then e.interacted_products cid
          else e.purchased_products cid)) = true := by
      intro hx
      exact hseeds (List.isEmpty_iff.mp hx)
    unfold candidate_recs at hr
    rw [if_neg hs] at hr
    obtain ⟨hscore, hne, hpos⟩ := combine_strategies_entries _ _ r hr
    rw [hscore]
    refine List.sum_pos _ ?_ ?_
    · intro x hx
      obtain ⟨c, hc, rfl⟩ := List.mem_map.mp hx
      exact hpos c hc
    · intro hx
      exact hne (List.map_eq_nil_iff.mp hx)

/-- Witness for **C9**: the fixture `wEngine`, customer `"C1"`, `top_n = 3`:
one candidate, output of length 1 < 3. -/
theorem C9_top_n_bound_witness :
    wEngine.recommend_for_customer "C1" 3 =
      .ok [⟨"P2", 106/115, [("co_occurrence", 2/5), ("similarity", 3/10),
        ("personalized_pagerank", 51/230)]⟩]
    ∧ ([(⟨"P2", 106/115, [("co_occurrence", 2/5), ("similarity", 3/10),
          ("personalized_pagerank", 51/230)]⟩ : Recommendation)].length ≤ 3
      ∧ ([(⟨"P2", 106/115, [("co_occurrence", 2/5), ("similarity", 3/10),
          ("personalized_pagerank", 51/230)]⟩ : Recommendation)].length < 3 →
          (candidate_recs wEngine "C1").length < 3)
      ∧ (seeds_of wEngine "C1" ≠ [] →
          ∀ r ∈ candidate_recs wEngine "C1", 0 < r.score)) :=
  ⟨by with_unfolding_all decide,
    C9_top_n_bound wEngine "C1" 3
      [⟨"P2", 106/115, [("co_occurrence", 2/5), ("similarity", 3/10),
        ("personalized_pagerank", 51/230)]⟩]
      (by with_unfolding_all decide)⟩

end RecommendationEngine

/-! ## Arithmetic list lemmas for the PageRank mass argument -/

/-- Pointwise sums split. -/
theorem sum_map_add {α : Type} (l : List α) (f g : α → ℚ) :
    (l.map (fun x => f x + g x)).sum = (l.map f).sum + (l.map g).sum := by
  induction l with
  | nil => simp
  | cons hd tl ih =>
    simp only [List.map_cons, List.sum_cons, ih]
    ring

/-- Constant factors pull out of sums. -/
theorem sum_map_mul_left {α : Type} (l : List α) (c : ℚ) (f : α → ℚ) :
    (l.map (fun x => c * f x)).sum = c * (l.map f).sum := by
  induction l with
  | nil => simp
  | cons hd tl ih =>
    simp only [List.map_cons, List.sum_cons, ih]
    ring

/-- Sum of a constant list. -/
theorem sum_map_const {α : Type} (l : List α) (c : ℚ) :
    (l.map (fun _ => c)).sum = (l.length : ℚ) * c := by
  induction l with
  | nil => simp
  | cons hd tl ih =>
    simp only [List.map_cons, List.sum_cons, ih, List.length_cons]
    push_cast
    ring

/-- Double sums commute. -/
theorem sum_sum_comm {α β : Type} (l1 : List α) (l2 : List β) (F : α → β → ℚ) :
    (l1.map (fun a => (l2.map (fun b => F a b)).sum)).sum
      = (l2.map (fun b => (l1.map (fun a => F a b)).sum)).sum := by
  induction l1 with
  | nil => simp
  | cons hd tl ih =>
    simp only [List.map_cons, List.sum_cons, ih, ← sum_map_add]

/-- A sum of point-mass terms over a list not containing the point is 0. -/
theorem sum_ite_zero_of_not_mem (l : List String) (a : String) (c : ℚ) (ha : a ∉ l) :
    (l.map (fun q => if a = q then c else 0)).sum = 0 := by
  induction l with
  | nil => rfl
  | cons hd tl ih =>
    simp only [List.map_cons, List.sum_cons]
    have h1 : ¬ a = hd := by
      intro h
      rw [h] at ha
      exact ha (List.mem_cons_self hd tl)
    rw [if_neg h1, ih (fun h => ha (List.mem_cons_of_mem hd h))]
    ring

/-- A sum of point-mass terms over a duplicate-free list containing the
point is the mass. -/
theorem sum_ite_eq_of_mem (l : List String) (a : String) (c : ℚ) (hnd : l.Nodup)
    (ha : a ∈ l) : (l.map (fun q => if a = q then c else 0)).sum = c := by
  induction l with
  | nil => cases ha
  | cons hd tl ih =>
    obtain ⟨hni, hnd'⟩ := List.nodup_cons.mp hnd
    simp only [List.map_cons, List.sum_cons]
    rcases List.mem_cons.mp ha with heq | ha'
    · rw [heq, if_pos rfl, sum_ite_zero_of_not_mem tl hd c hni]
      ring
    · have h1 : ¬ a = hd := by
        intro h
        rw [h] at ha'
        exact hni ha'
      rw [if_neg h1, ih hnd' ha']
      ring

/-- Splitting a sum along a boolean condition that zeroes one side. -/
theorem sum_map_ite_cond (l : List String) (c : String → Bool) (g : String → ℚ) :
    (l.map (fun p => if c p = true then 0 else g p)).sum
      = (l.map g).sum - ((l.filter c).map g).sum := by
  induction l with
  | nil => simp
  | cons hd tl ih =>
    by_cases hc : c hd = true
    · simp only [List.map_cons, List.sum_cons, List.filter_cons, hc, if_true, ih]
      ring
    · have hcf : c hd = false := Bool.eq_false_iff.mpr hc
      simp only [List.map_cons, List.sum_cons, List.filter_cons, hcf, ih,
        Bool.false_eq_true, if_false]
      ring

/-- Looking up a key of a map-built association list gives its value. -/
theorem lookupD_map_self {α : Type} (l : List String) (f : String → α) (d : α)
    (p : String) (hnd : l.Nodup) (hp : p ∈ l) :
    lookupD (l.map (fun q => (q, f q))) p d = f p := by
  induction l with
  | nil => cases hp
  | cons hd tl ih =>
    obtain ⟨hni, hnd'⟩ := List.nodup_cons.mp hnd
    show (if hd = p then f hd else lookupD (tl.map (fun q => (q, f q))) p d) = f p
    rcases List.mem_cons.mp hp with heq | hp'
    · rw [heq]
      rw [if_pos rfl]
    · have h1 : ¬ hd = p := by
        intro h
        rw [← h] at hp'
        exact hni hp'
      rw [if_neg h1, ih hnd' hp']

/-- The value sum of a duplicate-free association list, read through its
keys. -/
theorem SL_eq_alSum_of_keys (m : List (String × ℚ)) (hnd : (m.map Prod.fst).Nodup) :
    ((m.map Prod.fst).map (fun p => lookupD m p 0)).sum = alSum m := by
  induction m with
  | nil => rfl
  | cons hd tl ih =>
    rw [List.map_cons] at hnd
    obtain ⟨hni, hnd'⟩ := List.nodup_cons.mp hnd
    simp only [List.map_cons, List.sum_cons]
    have hhd : lookupD (hd :: tl) hd.1 0 = hd.2 := by
      show (if hd.1 = hd.1 then hd.2 else lookupD tl hd.1 0) = hd.2
      rw [if_pos rfl]
    have hrest : (tl.map Prod.fst).map (fun p => lookupD (hd :: tl) p 0)
        = (tl.map Prod.fst).map (fun p => lookupD tl p 0) := by
      apply List.map_congr_left
      intro p hp
      show (if hd.1 = p then hd.2 else lookupD tl p 0) = lookupD tl p 0
      have h1 : ¬ hd.1 = p := by
        intro h
        rw [h] at hni
        exact hni hp
      rw [if_neg h1]
    rw [hhd, hrest, ih hnd']
    rfl

/-- Value sum of an association list built over a key list. -/
theorem alSum_map_form (l : List String) (f : String → ℚ) :
    alSum (l.map (fun q => (q, f q))) = (l.map f).sum := by
  unfold alSum
  rw [List.map_map]
  rfl

/-- Multiplying the guarded leak by the population recovers the sink mass. -/
theorem mul_ite_div_self (n x : ℚ) (hn : n ≠ 0) :
    n * (if x / n = 0 then 0 else x / n) = x := by
  by_cases h : x / n = 0
  · rw [if_pos h, mul_zero]
    rcases div_eq_zero_iff.mp h with h0 | h0
    · exact h0.symm
    · exact absurd h0 hn
  · rw [if_neg h, mul_comm, div_mul_cancel₀ _ hn]

namespace RecommendationEngine

/-- One PageRank iteration conserves mass up to damping: the value sum of the
new rank dictionary is `(1-d)·Σ personalization + d·Σ ranks`.  The dangling
redistribution returns exactly the sink mass and each non-sink row propagates
exactly its rank (rows are normalized to 1). -/
theorem alSum_pagerank_step (e : RecommendationEngine) (pers ranks : List (String × ℚ))
    (hnd : e.product_ids.Nodup) (hne : e.product_ids ≠ [])
    (hrow : ∀ p ∈ e.product_ids, e.adjRow p = [] ∨ alSum (e.adjRow p) = 1)
    (hclosed : ∀ p ∈ e.product_ids, ∀ nw ∈ e.adjRow p, nw.1 ∈ e.product_ids) :
    alSum (pagerank_step e pers ranks)
      = (1 - e.damping) * (e.product_ids.map (fun q => lookupD pers q 0)).sum
        + e.damping * (e.product_ids.map (fun p => lookupD ranks p 0)).sum := by
  have hn : ((e.product_ids.length : ℚ)) ≠ 0 := by
    have h0 : e.product_ids.length ≠ 0 := fun h => hne (List.length_eq_zero.mp h)
    exact_mod_cast h0
  have hunfold : pagerank_step e pers ranks
      = e.product_ids.map (fun q =>
          (q, (1 - e.damping) * lookupD pers q 0
            + (e.product_ids.map (fun p =>
                ((e.adjRow p).map (fun nw =>
                  if nw.1 = q then e.damping * lookupD ranks p 0 * nw.2 else 0)).sum)).sum
            + (if e.damping * ((e.product_ids.filter (fun p => (e.adjRow p).isEmpty)).map
                  (fun p => lookupD ranks p 0)).sum / (e.product_ids.length : ℚ) = 0
              then 0
              else e.damping * ((e.product_ids.filter (fun p => (e.adjRow p).isEmpty)).map
                  (fun p => lookupD ranks p 0)).sum / (e.product_ids.length : ℚ)))) := rfl
  rw [hunfold, alSum_map_form]
  rw [sum_map_add e.product_ids
    (fun q => (1 - e.damping) * lookupD pers q 0
      + (e.product_ids.map (fun p =>
          ((e.adjRow p).map (fun nw =>
            if nw.1 = q then e.damping * lookupD ranks p 0 * nw.2 else 0)).sum)).sum)
    (fun _ => if e.damping * ((e.product_ids.filter (fun p => (e.adjRow p).isEmpty)).map
          (fun p => lookupD ranks p 0)).sum / (e.product_ids.length : ℚ) = 0
      then 0
      else e.damping * ((e.product_ids.filter (fun p => (e.adjRow p).isEmpty)).map
          (fun p => lookupD ranks p 0)).sum / (e.product_ids.length : ℚ))]
  rw [sum_map_add e.product_ids
    (fun q => (1 - e.damping) * lookupD pers q 0)
    (fun q => (e.product_ids.map (fun p =>
        ((e.adjRow p).map (fun nw =>
          if nw.1 = q then e.damping * lookupD ranks p 0 * nw.2 else 0)).sum)).sum)]
  rw [sum_map_mul_left e.product_ids (1 - e.damping) (fun q => lookupD pers q 0)]
  rw [sum_map_const]
  rw [sum_sum_comm e.product_ids e.product_ids
    (fun q p => ((e.adjRow p).map (fun nw =>
      if nw.1 = q then e.damping * lookupD ranks p 0 * nw.2 else 0)).sum)]
  have hB : e.product_ids.map (fun p => (e.product_ids.map (fun q =>
        ((e.adjRow p).map (fun nw =>
          if nw.1 = q then e.damping * lookupD ranks p 0 * nw.2 else 0)).sum)).sum)
      = e.product_ids.map (fun p =>
          if (e.adjRow p).isEmpty = true then 0 else e.damping * lookupD ranks p 0) := by
    apply List.map_congr_left
    intro p hp
    rw [sum_sum_comm e.product_ids (e.adjRow p)
      (fun q nw => if nw.1 = q then e.damping * lookupD ranks p 0 * nw.2 else 0)]
    have hinner : (e.adjRow p).map (fun nw => (e.product_ids.map (fun q =>
          if nw.1 = q then e.damping * lookupD ranks p 0 * nw.2 else 0)).sum)
        = (e.adjRow p).map (fun nw => e.damping * lookupD ranks p 0 * nw.2) := by
      apply List.map_congr_left
      intro nw hnw
      exact sum_ite_eq_of_mem e.product_ids nw.1 _ hnd (hclosed p hp nw hnw)
    rw [hinner, sum_map_mul_left (e.adjRow p) (e.damping * lookupD ranks p 0) Prod.snd]
    by_cases hemp : (e.adjRow p).isEmpty = true
    · rw [if_pos hemp, List.isEmpty_iff.mp hemp]
      simp
    · rw [if_neg hemp]
      rcases hrow p hp with h | h
      · exact absurd (by rw [h]; rfl) hemp
      · rw [show ((e.adjRow p).map Prod.snd).sum = alSum (e.adjRow p) from rfl, h, mul_one]
  rw [hB, sum_map_ite_cond e.product_ids (fun p => (e.adjRow p).isEmpty)
    (fun p => e.damping * lookupD ranks p 0)]
  rw [sum_map_mul_left e.product_ids e.damping (fun p => lookupD ranks p 0)]
  rw [sum_map_mul_left (e.product_ids.filter (fun p => (e.adjRow p).isEmpty))
    e.damping (fun p => lookupD ranks p 0)]
  rw [mul_ite_div_self ((e.product_ids.length : ℚ))
    (e.damping * ((e.product_ids.filter (fun p => (e.adjRow p).isEmpty)).map
      (fun p => lookupD ranks p 0)).sum) hn]
  ring

/-- Keys of one PageRank step are the product ids. -/
theorem pagerank_step_keys (e : RecommendationEngine) (pers ranks : List (String × ℚ)) :
    (pagerank_step e pers ranks).map Prod.fst = e.product_ids := by
  show (e.product_ids.map _).map Prod.fst = e.product_ids
  rw [List.map_map]
  exact List.map_id _

/-- The power loop of `_run_pagerank` preserves unit mass. -/
theorem pagerank_loop_sum (e : RecommendationEngine) (pers : List (String × ℚ))
    (hnd : e.product_ids.Nodup) (hne : e.product_ids ≠ [])
    (hrow : ∀ p ∈ e.product_ids, e.adjRow p = [] ∨ alSum (e.adjRow p) = 1)
    (hclosed : ∀ p ∈ e.product_ids, ∀ nw ∈ e.adjRow p, nw.1 ∈ e.product_ids)
    (hpers : (e.product_ids.map (fun q => lookupD pers q 0)).sum = 1) :
    ∀ (fuel : Nat) (ranks : List (String × ℚ)),
      ranks.map Prod.fst = e.product_ids → alSum ranks = 1 →
      alSum (pagerank_loop e pers fuel ranks) = 1 := by
  intro fuel
  induction fuel with
  | zero => intro ranks _ h2; exact h2
  | succ n ih =>
    intro ranks hkeys h2
    have hSL : (e.product_ids.map (fun p => lookupD ranks p 0)).sum = 1 := by
      rw [← hkeys, SL_eq_alSum_of_keys ranks (by rw [hkeys]; exact hnd)]
      exact h2
    have hstep : alSum (pagerank_step e pers ranks) = 1 := by
      rw [alSum_pagerank_step e pers ranks hnd hne hrow hclosed, hpers, hSL]
      ring
    show alSum (if (e.product_ids.map (fun pid =>
        |lookupD (pagerank_step e pers ranks) pid 0 - lookupD ranks pid 0|)).sum
          < e.tolerance
      then pagerank_step e pers ranks
      else pagerank_loop e pers n (pagerank_step e pers ranks)) = 1
    by_cases hdelta : (e.product_ids.map (fun pid =>
        |lookupD (pagerank_step e pers ranks) pid 0 - lookupD ranks pid 0|)).sum
          < e.tolerance
    · rw [if_pos hdelta]
      exact hstep
    · rw [if_neg hdelta]
      exact ih (pagerank_step e pers ranks) (pagerank_step_keys e pers ranks) hstep

/-- `_normalize_personalization` always returns a unit-mass vector over the
product ids: either the input renormalized by its nonzero total, or the
uniform distribution. -/
theorem normalize_personalization_sum (e : RecommendationEngine)
    (values : List (String × ℚ))
    (hnd : e.product_ids.Nodup) (hne : e.product_ids ≠ []) :
    (e.product_ids.map (fun q =>
      lookupD (e.normalize_personalization values) q 0)).sum = 1 := by
  have hn : ((e.product_ids.length : ℚ)) ≠ 0 := by
    have h0 : e.product_ids.length ≠ 0 := fun h => hne (List.length_eq_zero.mp h)
    exact_mod_cast h0
  have hemp : ¬ e.product_ids.isEmpty = true := fun h => hne (List.isEmpty_iff.mp h)
  unfold normalize_personalization
  by_cases ht : (e.product_ids.map (fun pid => lookupD values pid 0)).sum = 0
  · rw [if_pos ht]
    unfold uniform_personalization
    rw [if_neg hemp]
    have hlook : e.product_ids.map (fun q =>
          lookupD (e.product_ids.map
            (fun pid => (pid, 1 / (e.product_ids.length : ℚ)))) q 0)
        = e.product_ids.map (fun _ => 1 / (e.product_ids.length : ℚ)) := by
      apply List.map_congr_left
      intro q hq
      exact lookupD_map_self e.product_ids (fun _ => 1 / (e.product_ids.length : ℚ))
        0 q hnd hq
    rw [hlook, sum_map_const, mul_one_div_cancel hn]
  · rw [if_neg ht]
    have hlook : e.product_ids.map (fun q =>
          lookupD (e.product_ids.map (fun pid => (pid,
            lookupD values pid 0
              / (e.product_ids.map (fun pid => lookupD values pid 0)).sum))) q 0)
        = e.product_ids.map (fun q =>
            lookupD values q 0
              / (e.product_ids.map (fun pid => lookupD values pid 0)).sum) := by
      apply List.map_congr_left
      intro q hq
      exact lookupD_map_self e.product_ids
        (fun pid => lookupD values pid 0
          / (e.product_ids.map (fun pid => lookupD values pid 0)).sum) 0 q hnd hq
    rw [hlook]
    have h2 : e.product_ids.map (fun q =>
          lookupD values q 0
            / (e.product_ids.map (fun pid => lookupD values pid 0)).sum)
        = (e.product_ids.map (fun q => lookupD values q 0)).map (fun x =>
            x / (e.product_ids.map (fun pid => lookupD values pid 0)).sum) := by
      rw [List.map_map]
      rfl
    rw [h2, list_sum_div, div_self ht]

/-- `_run_pagerank` returns a unit-mass rank dictionary whenever the product
set is non-empty. -/
theorem alSum_run_pagerank (e : RecommendationEngine)
    (personalization : List (String × ℚ))
    (hnd : e.product_ids.Nodup) (hne : e.product_ids ≠ [])
    (hrow : ∀ p ∈ e.product_ids, e.adjRow p = [] ∨ alSum (e.adjRow p) = 1)
    (hclosed : ∀ p ∈ e.product_ids, ∀ nw ∈ e.adjRow p, nw.1 ∈ e.product_ids) :
    alSum (e.run_pagerank personalization) = 1 := by
  have hn : ((e.product_ids.length : ℚ)) ≠ 0 := by
    have h0 : e.product_ids.length ≠ 0 := fun h => hne (List.length_eq_zero.mp h)
    exact_mod_cast h0
  have hemp : ¬ e.product_ids.isEmpty = true := fun h => hne (List.isEmpty_iff.mp h)
  unfold run_pagerank
  rw [if_neg hemp]
  refine pagerank_loop_sum e _ hnd hne hrow hclosed
    (normalize_personalization_sum e personalization hnd hne) e.max_iterations _ ?_ ?_
  · rw [List.map_map]
    exact List.map_id _
  · rw [alSum_map_form, sum_map_const, mul_one_div_cancel hn]

/-- **C3.**  For every engine whose product set is non-empty — with
duplicate-free product ids, row-normalized adjacency (each row empty or of
value sum 1), and adjacency targets inside the product set, which
`build_graph` guarantees — and for every personalization vector, the rank
dictionary returned by the PageRank solver sums to 1 within tolerance
`1e-6`: in the exact rational model the `(1-d)` base, the damped
row-normalized propagation, and the uniform redistribution of dangling mass
conserve unit mass at every iteration, so the sum is exactly 1. -/
theorem C3_pagerank_mass_conservation (e : RecommendationEngine)
    (personalization : List (String × ℚ))
    (hne : e.product_ids ≠ []) (hnd : e.product_ids.Nodup)
    (hrow : ∀ p ∈ e.product_ids, e.adjRow p = [] ∨ alSum (e.adjRow p) = 1)
    (hclosed : ∀ p ∈ e.product_ids, ∀ nw ∈ e.adjRow p, nw.1 ∈ e.product_ids) :
    |alSum (e.run_pagerank personalization) - 1| < 1/1000000 := by
  rw [alSum_run_pagerank e personalization hnd hne hrow hclosed]
  norm_num

/-- Witness for **C3**: the reference engine (default parameters, reference
graph) with an empty personalization dictionary (renormalized to uniform). -/
theorem C3_pagerank_mass_conservation_witness :
    (refEngine.product_ids ≠ [] ∧ refEngine.product_ids.Nodup
      ∧ (∀ p ∈ refEngine.product_ids,
          refEngine.adjRow p = [] ∨ alSum (refEngine.adjRow p) = 1)
      ∧ (∀ p ∈ refEngine.product_ids, ∀ nw ∈ refEngine.adjRow p,
          nw.1 ∈ refEngine.product_ids))
    ∧ |alSum (refEngine.run_pagerank []) - 1| < 1/1000000 :=
  ⟨⟨by with_unfolding_all decide, by with_unfolding_all decide,
    by with_unfolding_all decide, by with_unfolding_all decide⟩,
    C3_pagerank_mass_conservation refEngine [] (by with_unfolding_all decide)
      (by with_unfolding_all decide) (by with_unfolding_all decide)
      (by with_unfolding_all decide)⟩

/-- The rank dictionary built by one PageRank step, written out. -/
theorem pagerank_step_eq (e : RecommendationEngine) (pers ranks : List (String × ℚ)) :
    pagerank_step e pers ranks
      = e.product_ids.map (fun q =>
          (q, (1 - e.damping) * lookupD pers q 0
            + (e.product_ids.map (fun p =>
                ((e.adjRow p).map (fun nw =>
                  if nw.1 = q then e.damping * lookupD ranks p 0 * nw.2 else 0)).sum)).sum
            + (if e.damping * ((e.product_ids.filter (fun p => (e.adjRow p).isEmpty)).map
                  (fun p => lookupD ranks p 0)).sum / (e.product_ids.length : ℚ) = 0
              then 0
              else e.damping * ((e.product_ids.filter (fun p => (e.adjRow p).isEmpty)).map
                  (fun p => lookupD ranks p 0)).sum / (e.product_ids.length : ℚ)))) :=
  rfl

/-- A lookup in a list of nonnegative values is nonnegative. -/
theorem lookupD_nonneg (m : List (String × ℚ)) (h : ∀ pr ∈ m, 0 ≤ pr.2) (k : String) :
    0 ≤ lookupD m k 0 := by
  induction m with
  | nil => exact le_refl 0
  | cons hd tl ih =>
    show 0 ≤ (if hd.1 = k then hd.2 else lookupD tl k 0)
    by_cases hk : hd.1 = k
    · rw [if_pos hk]
      exact h hd (List.mem_cons_self hd tl)
    · rw [if_neg hk]
      exact ih (fun pr hpr => h pr (List.mem_cons_of_mem hd hpr))

/-- With `0 ≤ d < 1`, nonnegative edge weights and a strictly positive
personalization over the product set, one PageRank step produces strictly
positive ranks. -/
theorem pagerank_step_pos (e : RecommendationEngine) (pers ranks : List (String × ℚ))
    (hd0 : 0 ≤ e.damping) (hd1 : e.damping < 1)
    (hw : ∀ p, ∀ nw ∈ e.adjRow p, 0 ≤ nw.2)
    (hpers : ∀ q ∈ e.product_ids, 0 < lookupD pers q 0)
    (hr : ∀ pr ∈ ranks, 0 ≤ pr.2)
    (hn : (0 : ℚ) < (e.product_ids.length : ℚ)) :
    ∀ pr ∈ pagerank_step e pers ranks, 0 < pr.2 := by
  intro pr hpr
  rw [pagerank_step_eq] at hpr
  obtain ⟨q, hq, rfl⟩ := List.mem_map.mp hpr
  have h1 : 0 < (1 - e.damping) * lookupD pers q 0 :=
    mul_pos (by linarith) (hpers q hq)
  have h2 : 0 ≤ (e.product_ids.map (fun p =>
      ((e.adjRow p).map (fun nw =>
        if nw.1 = q then e.damping * lookupD ranks p 0 * nw.2 else 0)).sum)).sum := by
    apply List.sum_nonneg
    intro x hx
    obtain ⟨p, _, rfl⟩ := List.mem_map.mp hx
    apply List.sum_nonneg
    intro y hy
    obtain ⟨nw, hnw, rfl⟩ := List.mem_map.mp hy
    by_cases hqq : nw.1 = q
    · rw [if_pos hqq]
      exact mul_nonneg (mul_nonneg hd0 (lookupD_nonneg ranks hr p)) (hw p nw hnw)
    · rw [if_neg hqq]
  have hsink : 0 ≤ ((e.product_ids.filter (fun p => (e.adjRow p).isEmpty)).map
      (fun p => lookupD ranks p 0)).sum := by
    apply List.sum_nonneg
    intro x hx
    obtain ⟨p, _, rfl⟩ := List.mem_map.mp hx
    exact lookupD_nonneg ranks hr p
  have h3 : 0 ≤ (if e.damping * ((e.product_ids.filter (fun p => (e.adjRow p).isEmpty)).map
        (fun p => lookupD ranks p 0)).sum / (e.product_ids.length : ℚ) = 0
      then 0
      else e.damping * ((e.product_ids.filter (fun p => (e.adjRow p).isEmpty)).map
        (fun p => lookupD ranks p 0)).sum / (e.product_ids.length : ℚ)) := by
    by_cases hz : e.damping * ((e.product_ids.filter (fun p => (e.adjRow p).isEmpty)).map
        (fun p => lookupD ranks p 0)).sum / (e.product_ids.length : ℚ) = 0
    · rw [if_pos hz]
    · rw [if_neg hz]
      exact div_nonneg (mul_nonneg hd0 hsink) (le_of_lt hn)
  show 0 < (1 - e.damping) * lookupD pers q 0 + _ + _
  linarith

/-- The power loop preserves strict positivity of the ranks. -/
theorem pagerank_loop_pos (e : RecommendationEngine) (pers : List (String × ℚ))
    (hd0 : 0 ≤ e.damping) (hd1 : e.damping < 1)
    (hw : ∀ p, ∀ nw ∈ e.adjRow p, 0 ≤ nw.2)
    (hpers : ∀ q ∈ e.product_ids, 0 < lookupD pers q 0)
    (hn : (0 : ℚ) < (e.product_ids.length : ℚ)) :
    ∀ (fuel : Nat) (ranks : List (String × ℚ)), (∀ pr ∈ ranks, 0 < pr.2) →
      ∀ pr ∈ pagerank_loop e pers fuel ranks, 0 < pr.2 := by
  intro fuel
  induction fuel with
  | zero => intro ranks hpos pr hpr; exact hpos pr hpr
  | succ n ih =>
    intro ranks hpos pr hpr
    have hstep := pagerank_step_pos e pers ranks hd0 hd1 hw hpers
      (fun q hq => le_of_lt (hpos q hq)) hn
    show 0 < pr.2
    have : pr ∈ (if (e.product_ids.map (fun pid =>
        |lookupD (pagerank_step e pers ranks) pid 0 - lookupD ranks pid 0|)).sum
          < e.tolerance
      then pagerank_step e pers ranks
      else pagerank_loop e pers n (pagerank_step e pers ranks)) := hpr
    by_cases hdelta : (e.product_ids.map (fun pid =>
        |lookupD (pagerank_step e pers ranks) pid 0 - lookupD ranks pid 0|)).sum
          < e.tolerance
    · rw [if_pos hdelta] at this
      exact hstep pr this
    · rw [if_neg hdelta] at this
      exact ih (pagerank_step e pers ranks) hstep pr this

/-- Every value of the cached global PageRank is strictly positive when the
damping factor is in `[0, 1)` and the adjacency weights are nonnegative. -/
theorem global_pagerank_pos (e : RecommendationEngine)
    (hd0 : 0 ≤ e.damping) (hd1 : e.damping < 1) (hnd : e.product_ids.Nodup)
    (hw : ∀ adjacency_pr ∈ e.graph.product_adjacency, ∀ nw ∈ adjacency_pr.2, 0 ≤ nw.2)
    (hne : e.product_ids ≠ []) :
    ∀ pr ∈ e.global_pagerank, 0 < pr.2 := by
  have hn : (0 : ℚ) < (e.product_ids.length : ℚ) := by
    have h0 : 0 < e.product_ids.length := List.length_pos.mpr hne
    exact_mod_cast h0
  have hemp : ¬ e.product_ids.isEmpty = true := fun h => hne (List.isEmpty_iff.mp h)
  have hwrow : ∀ p, ∀ nw ∈ e.adjRow p, 0 ≤ nw.2 := by
    intro p nw hnw
    rcases lookupD_self_or_mem e.graph.product_adjacency p
      ([] : List (String × ℚ)) with h | h
    · unfold adjRow at hnw
      rw [h] at hnw
      cases hnw
    · exact hw _ h nw (by exact hnw)
  have huni : ∀ q ∈ e.product_ids, lookupD e.uniform_personalization q 0
      = 1 / (e.product_ids.length : ℚ) := by
    intro q hq
    unfold uniform_personalization
    rw [if_neg hemp]
    exact lookupD_map_self e.product_ids
      (fun _ => 1 / (e.product_ids.length : ℚ)) 0 q hnd hq
  have htot : (e.product_ids.map (fun pid =>
      lookupD e.uniform_personalization pid 0)).sum = 1 := by
    rw [List.map_congr_left huni, sum_map_const, mul_one_div_cancel (ne_of_gt hn)]
  have hpers : ∀ q ∈ e.product_ids,
      0 < lookupD (e.normalize_personalization e.uniform_personalization) q 0 := by
    intro q hq
    unfold normalize_personalization
    rw [if_neg (by rw [htot]; norm_num)]
    rw [lookupD_map_self e.product_ids
      (fun pid => lookupD e.uniform_personalization pid 0
        / (e.product_ids.map (fun pid =>
            lookupD e.uniform_personalization pid 0)).sum) 0 q hnd hq]
    rw [huni q hq, htot, div_one]
    positivity
  unfold global_pagerank run_pagerank
  rw [if_neg hemp]
  apply pagerank_loop_pos e _ hd0 hd1 hwrow hpers hn
  intro pr hpr
  obtain ⟨pid, _, rfl⟩ := List.mem_map.mp hpr
  show 0 < 1 / (e.product_ids.length : ℚ)
  positivity

/-- **C10.**  Every recommendation returned by `recommend_for_customer` —
fused path and cold-start path alike — has its score equal to the sum of its
contribution values, and every contribution value strictly positive (the
engine's damping lies in `[0,1)` and its graph, as produced by
`build_graph`, has duplicate-free product ids and nonnegative adjacency
weights). -/
theorem C10_score_is_sum_of_positive_contributions (e : RecommendationEngine)
    (cid : String) (top_n : Nat) (l : List Recommendation)
    (hd0 : 0 ≤ e.damping) (hd1 : e.damping < 1) (hnd : e.product_ids.Nodup)
    (hw : ∀ adjacency_pr ∈ e.graph.product_adjacency, ∀ nw ∈ adjacency_pr.2, 0 ≤ nw.2)
    (h : e.recommend_for_customer cid top_n = .ok l) (r : Recommendation)
    (hr : r ∈ l) :
    r.score = alSum r.contributions ∧ ∀ c ∈ r.contributions, 0 < c.2 := by
  have hl := rec_ok_eq_take e cid top_n l h
  rw [hl] at hr
  have hr' : r ∈ candidate_recs e cid := List.take_subset _ _ hr
  unfold candidate_recs at hr'
  by_cases hs : (List.isEmpty
      (if (e.purchased_products cid).isEmpty then e.interacted_products cid
        else e.purchased_products cid)) = true
  · rw [if_pos hs] at hr'
    obtain ⟨it, hit, rfl⟩ := List.mem_map.mp hr'
    constructor
    · show it.2 = alSum [("global_pagerank", it.2)]
      unfold alSum
      simp
    · intro c hc
      rcases List.mem_singleton.mp hc with rfl
      show 0 < it.2
      rw [mem_sortBy] at hit
      have hitg : it ∈ e.global_pagerank := List.mem_of_mem_filter hit
      have hne : e.product_ids ≠ [] := by
        intro hnil
        have hemp : e.product_ids.isEmpty = true := by rw [hnil]; rfl
        have : e.global_pagerank = [] := by
          unfold global_pagerank run_pagerank
          rw [if_pos hemp]
        rw [this] at hitg
        cases hitg
      exact global_pagerank_pos e hd0 hd1 hnd hw hne it hitg
  · rw [if_neg hs] at hr'
    obtain ⟨hscore, _, hpos⟩ := combine_strategies_entries _ _ r hr'
    exact ⟨hscore, hpos⟩

/-- Witness for **C10**: the fixture `wEngine`, customer `"C1"`. -/
theorem C10_score_is_sum_of_positive_contributions_witness :
    (0 ≤ wEngine.damping ∧ wEngine.damping < 1 ∧ wEngine.product_ids.Nodup
      ∧ (∀ adjacency_pr ∈ wEngine.graph.product_adjacency,
          ∀ nw ∈ adjacency_pr.2, 0 ≤ nw.2)
      ∧ wEngine.recommend_for_customer "C1" 3 =
          .ok [⟨"P2", 106/115, [("co_occurrence", 2/5), ("similarity", 3/10),
            ("personalized_pagerank", 51/230)]⟩]
      ∧ (⟨"P2", 106/115, [("co_occurrence", 2/5), ("similarity", 3/10),
          ("personalized_pagerank", 51/230)]⟩ : Recommendation) ∈
        [(⟨"P2", 106/115, [("co_occurrence", 2/5), ("similarity", 3/10),
          ("personalized_pagerank", 51/230)]⟩ : Recommendation)])
    ∧ ((106 : ℚ)/115 = alSum [("co_occurrence", (2 : ℚ)/5), ("similarity", 3/10),
        ("personalized_pagerank", 51/230)]
      ∧ ∀ c ∈ [("co_occurrence", (2 : ℚ)/5), ("similarity", (3 : ℚ)/10),
          ("personalized_pagerank", (51 : ℚ)/230)], 0 < c.2) :=
  ⟨⟨by with_unfolding_all decide, by with_unfolding_all decide,
    by with_unfolding_all decide, by with_unfolding_all decide,
    by with_unfolding_all decide, by with_unfolding_all decide⟩,
    C10_score_is_sum_of_positive_contributions wEngine "C1" 3
      [⟨"P2", 106/115, [("co_occurrence", 2/5), ("similarity", 3/10),
        ("personalized_pagerank", 51/230)]⟩]
      (by with_unfolding_all decide) (by with_unfolding_all decide)
      (by with_unfolding_all decide) (by with_unfolding_all decide)
      (by with_unfolding_all decide)
      ⟨"P2", 106/115, [("co_occurrence", 2/5), ("similarity", 3/10),
        ("personalized_pagerank", 51/230)]⟩
      (by with_unfolding_all decide)⟩

end RecommendationEngine

end GraphRec
